import Mathlib

/-!
Verification development for the transcript-to-podcast-script pipeline
(`transcript_processor.py` and `script_generator.py`).

The Python code is embedded shallowly: strings are `List Char` (wrapped in
`String` at the interface), the regex substitutions of `clean_transcript`
are implemented as explicit scanners that follow Python `re.sub` semantics
(leftmost match, greedy quantifiers, continue after the match end), and the
rational type `ℚ` stands for Python floats (all quantities involved are
2-decimal values where no representation or tie issues arise; see
`roundTo2`).  Character classes follow the ASCII fragment of Python's
regex classes, which covers every string the repository manipulates.
-/

set_option maxRecDepth 100000

namespace Podcast

/-- ASCII whitespace, as matched by Python's regex class. -/
def isWs (c : Char) : Bool :=
  c = ' ' || c = '\t' || c = '\n' || c = '\r' || c = '\x0b' || c = '\x0c'

/-- ASCII decimal digit. -/
def isDigitC (c : Char) : Bool := '0' ≤ c && c ≤ '9'

/-- ASCII uppercase letter. -/
def isUpperC (c : Char) : Bool := 'A' ≤ c && c ≤ 'Z'

/-- ASCII lowercase letter. -/
def isLowerC (c : Char) : Bool := 'a' ≤ c && c ≤ 'z'

/-- ASCII letter. -/
def isAlphaC (c : Char) : Bool := isUpperC c || isLowerC c

/-- Word character for Python's word-boundary semantics (ASCII fragment). -/
def isWordC (c : Char) : Bool := isAlphaC c || isDigitC c || c = '_'

/-- ASCII lowering, the fragment of Python's `str.lower` the pipeline meets. -/
def lowChar (c : Char) : Char :=
  if isUpperC c then Char.ofNat (c.toNat + 32) else c

/-- Lower a character list. -/
def lowStr (s : List Char) : List Char := s.map lowChar

/-- Python `str.strip()` on a character list. -/
def pyStrip (s : List Char) : List Char :=
  ((s.dropWhile isWs).reverse.dropWhile isWs).reverse

/-- Auxiliary for whitespace collapsing: the flag records whether the
previous character was whitespace (in which case further whitespace is
absorbed into the single space already emitted). -/
def collapseWsAux : Bool → List Char → List Char
  | _, [] => []
  | inWs, c :: cs =>
    if isWs c then
      if inWs then collapseWsAux true cs else ' ' :: collapseWsAux true cs
    else c :: collapseWsAux false cs

/-- `re.sub(r'\s+', ' ', s)`: every maximal whitespace run becomes one space. -/
def collapseWs (s : List Char) : List Char := collapseWsAux false s

/-- Python `text.split('\n\n')`: split on non-overlapping leftmost
occurrences of a blank-line separator. -/
def splitNNAux : List Char → List Char → List (List Char)
  | acc, '\n' :: '\n' :: rest => acc.reverse :: splitNNAux [] rest
  | acc, c :: rest => splitNNAux (c :: acc) rest
  | acc, [] => [acc.reverse]

/-- `text.split('\n\n')`. -/
def splitNN (s : List Char) : List (List Char) := splitNNAux [] s

/-- Python `str.split()` with no argument: maximal non-whitespace runs
(fuel-based so that the kernel can evaluate it; the fuel is always the
input length, which bounds the number of steps). -/
def wsWordsF : Nat → List Char → List (List Char)
  | 0, _ => []
  | f + 1, s =>
    match s with
    | [] => []
    | c :: cs =>
      if isWs c then wsWordsF f cs
      else (c :: cs.takeWhile (fun d => !isWs d)) ::
        wsWordsF f (cs.dropWhile (fun d => !isWs d))

/-- Python `str.split()` with no argument. -/
def wsWords (s : List Char) : List (List Char) := wsWordsF s.length s

/-- Substring containment on character lists (`phrase in text` in Python). -/
def containsSub (hay needle : List Char) : Bool :=
  match hay with
  | [] => needle.isEmpty
  | _ :: t => needle.isPrefixOf hay || containsSub t needle

/-- The introduction phrase group of `_classify_segment`. -/
def introPhrases : List String := ["introduction", "welcome", "hello", "today we"]

/-- The conclusion phrase group of `_classify_segment`. -/
def conclusionPhrases : List String := ["conclusion", "summary", "in closing", "to wrap up"]

/-- The question/answer phrase group of `_classify_segment`. -/
def qaPhrases : List String := ["question", "answer", "q:", "a:"]

/-- The data phrase group of `_classify_segment`. -/
def dataPhrases : List String := ["data", "statistics", "research", "study"]

/-- The narrative phrase group of `_classify_segment`. -/
def narrativePhrases : List String := ["story", "example", "case", "experience"]

/-- `any(phrase in text_lower for phrase in …)`: case-insensitive phrase
containment of some phrase of the group. -/
def hasPhraseIn (phrases : List String) (text : List Char) : Bool :=
  phrases.any (fun p => containsSub (lowStr text) p.data)

/-- `TranscriptProcessor._classify_segment`: lowercase the text, then test
the phrase groups in the fixed source order, first match winning. -/
def classifySegment (text : List Char) : String :=
  if hasPhraseIn introPhrases text then "introduction"
  else if hasPhraseIn conclusionPhrases text then "conclusion"
  else if hasPhraseIn qaPhrases text then "qa"
  else if hasPhraseIn dataPhrases text then "data"
  else if hasPhraseIn narrativePhrases text then "narrative"
  else "content"

/-- Rounding to two decimals.  Python's `round` is round-half-even on
binary floats; every value rounded in this code base is `w/150` for a word
count `w` (never half-way at two decimals, since `(2*w/3 : ℚ)` has an odd
numerator whenever it is not integral) or an exact multiple of `1/100`
(where rounding is the identity), so Mathlib's `round` agrees with Python
on all reachable inputs. -/
def roundTo2 (q : ℚ) : ℚ := (round (q * 100) : ℤ) / 100

/-- `TranscriptProcessor._estimate_speaking_duration`. -/
def estimateSpeakingDuration (text : List Char) : ℚ :=
  roundTo2 ((wsWords text).length / 150)

/-- The stopword list of `TranscriptProcessor._extract_keywords`. -/
def commonWords : List String :=
  ["that", "this", "with", "from", "they", "were", "been", "have", "their",
   "said", "each", "which", "what", "where", "when", "will", "more", "some",
   "time", "very", "into", "just", "also", "only", "over", "think", "know",
   "people", "other", "come", "could", "there", "first", "after", "back",
   "work", "way", "even", "want", "because", "these", "give", "most", "us"]

/-- Maximal word-character runs of a character list (fuel-based). -/
def wordRunsOfF : Nat → List Char → List (List Char)
  | 0, _ => []
  | f + 1, s =>
    match s with
    | [] => []
    | c :: cs =>
      if isWordC c then
        (c :: cs.takeWhile isWordC) :: wordRunsOfF f (cs.dropWhile isWordC)
      else wordRunsOfF f cs

/-- Maximal word-character runs of a character list (used for keyword
extraction). -/
def wordRunsOf (s : List Char) : List (List Char) := wordRunsOfF s.length s

/-- First-occurrence deduplication.  CPython's `list(set(ws))` iterates a
hash set whose order is unspecified; the embedding fixes first-occurrence
order, and no theorem below depends on the order of a deduplicated list
with more than one element. -/
def pySetList {α : Type} [DecidableEq α] : List α → List α
  | [] => []
  | x :: xs => x :: (pySetList xs).filter (fun y => y ≠ x)

/-- `TranscriptProcessor._extract_keywords`: maximal letter runs of length
at least 4 in the lowered text (the pattern's word boundaries reject runs
adjacent to digits or underscores, so matches are exactly the all-letter
word runs), deduplicated, stopword-filtered, first 10 kept. -/
def extractKeywords (text : List Char) : List (List Char) :=
  let words := (wordRunsOf (lowStr text)).filter
    (fun r => r.all isAlphaC && decide (4 ≤ r.length))
  ((pySetList words).filter (fun w => !(commonWords.map String.data).contains w)).take 10

/-- One content segment, as produced by `extract_key_segments`. -/
structure Segment where
  id : Nat
  text : List Char
  word_count : Nat
  estimated_duration : ℚ
  topic_keywords : List (List Char)
  segment_type : String
  deriving DecidableEq, Repr

/-- Build the segment for one paragraph. -/
def mkSegment (idx : Nat) (paragraph : List Char) : Segment :=
  { id := idx + 1
    text := paragraph
    word_count := (wsWords paragraph).length
    estimated_duration := estimateSpeakingDuration paragraph
    topic_keywords := extractKeywords paragraph
    segment_type := classifySegment paragraph }

/-- `TranscriptProcessor.extract_key_segments`. -/
def extractKeySegments (text : List Char) : List Segment :=
  let paragraphs := ((splitNN text).map pyStrip).filter (fun p => !p.isEmpty)
  paragraphs.enum.map (fun ip => mkSegment ip.1 ip.2)

/-!
### The normalization passes of `clean_transcript`

Each `re.sub` call is realized as a scanner.  Scanners that consume more
than one character per step take a fuel argument (always called with the
input length, which every step strictly decreases while consuming at least
one character); on exhausted fuel the remaining input is returned
unchanged, which is unreachable at the stated fuel.
-/

/-- Match `[\d:]+\]` at the head (the part of `\[[\d:]+\]` after the
opening bracket): a maximal digit/colon run, nonempty, then `]`.  The
quantifier is greedy and `]` is outside the class, so backtracking can
never succeed when this fails. -/
def tsMatch (cs : List Char) : Option (List Char) :=
  let run := cs.takeWhile (fun c => isDigitC c || c = ':')
  let rest := cs.dropWhile (fun c => isDigitC c || c = ':')
  if run.isEmpty then none
  else match rest with
    | ']' :: r => some r
    | _ => none

/-- `re.sub(r'\[[\d:]+\]', '', s)`, scanning left to right and continuing
after each match end, as `re.sub` does. -/
def removeTimestampsF : Nat → List Char → List Char
  | 0, s => s
  | f + 1, s =>
    match s with
    | [] => []
    | c :: cs =>
      if c = '[' then
        match tsMatch cs with
        | some r => removeTimestampsF f r
        | none => c :: removeTimestampsF f cs
      else c :: removeTimestampsF f cs

/-- Match `[A-Z\s]+\d*\s*:` at the head: maximal uppercase/whitespace run
(nonempty), maximal digit run, maximal whitespace run, then `:`.  Each
quantifier is greedy; shrinking any run re-exposes a character of that
run's own class where `:` (or the next class) is required, so the
maximal-munch parse is the only candidate and failure is definitive. -/
def capsTagMatch (s : List Char) : Option (List Char) :=
  let run := s.takeWhile (fun c => isUpperC c || isWs c)
  let r1 := s.dropWhile (fun c => isUpperC c || isWs c)
  if run.isEmpty then none
  else
    let r3 := (r1.dropWhile isDigitC).dropWhile isWs
    match r3 with
    | ':' :: rest => some rest
    | _ => none

/-- `re.sub(r'^[A-Z\s]+\d*\s*:', '', s, flags=re.MULTILINE)`: the anchor
restricts match starts to the string start and positions following a
newline; the flag tracks that.  A match ends at `:`, so the position after
a match is never a line start. -/
def removeCapsTagsF : Nat → Bool → List Char → List Char
  | 0, _, s => s
  | f + 1, atStart, s =>
    match s with
    | [] => []
    | c :: cs =>
      if atStart then
        match capsTagMatch s with
        | some rest => removeCapsTagsF f false rest
        | none => c :: removeCapsTagsF f (c = '\n') cs
      else c :: removeCapsTagsF f (c = '\n') cs

/-- Case-insensitive literal prefix match, returning the remainder. -/
def icPrefixOf : List Char → List Char → Option (List Char)
  | [], s => some s
  | _ :: _, [] => none
  | a :: ws, c :: cs => if lowChar c = a then icPrefixOf ws cs else none

/-- After one of the role words, match `\s*\d*\s*:\s*` (greedy, and as for
`capsTagMatch` the maximal-munch parse is the only candidate).  Returns
the remainder after the consumed trailing whitespace. -/
def roleTagAfterWord (s : List Char) : Option (List Char) :=
  let r3 := ((s.dropWhile isWs).dropWhile isDigitC).dropWhile isWs
  match r3 with
  | ':' :: rest => some (rest.dropWhile isWs)
  | _ => none

/-- Try the four role words of `\b(Speaker|Host|Interviewer|Guest)` in
alternation order (none is a prefix of another, so order is immaterial),
each followed by `\s*\d*\s*:\s*`. -/
def roleTagMatch (s : List Char) : Option (List Char) :=
  (((icPrefixOf "speaker".data s).bind roleTagAfterWord).orElse fun _ =>
    ((icPrefixOf "host".data s).bind roleTagAfterWord).orElse fun _ =>
      ((icPrefixOf "interviewer".data s).bind roleTagAfterWord).orElse fun _ =>
        (icPrefixOf "guest".data s).bind roleTagAfterWord)

/-- Word-boundary test against the previously scanned character (the role
words begin with a letter, so `\b` holds iff that character is absent or
not a word character). -/
def noWordBefore : Option Char → Bool
  | none => true
  | some p => !isWordC p

/-- `re.sub(r'\b(Speaker|Host|Interviewer|Guest)\s*\d*\s*:\s*', '', s,
flags=re.IGNORECASE)`.  The recorded previous character after a match is
`':'`; the character actually preceding the continuation in the original
string is `':'` or trailing whitespace, equally a non-word character, so
boundary decisions are unaffected. -/
def removeRoleTagsF : Nat → Option Char → List Char → List Char
  | 0, _, s => s
  | f + 1, prev, s =>
    match s with
    | [] => []
    | c :: cs =>
      if noWordBefore prev then
        match roleTagMatch s with
        | some rest => removeRoleTagsF f (some ':') rest
        | none => c :: removeRoleTagsF f (some c) cs
      else c :: removeRoleTagsF f (some c) cs

/-!
### Word-run tokenization

The filler-word and spelling-correction substitutions carry `\b` word
boundaries on both sides of all-letter alternatives, so their matches are
aligned with maximal word-character runs; the remaining substitutions
(double commas, question marks, whitespace collapsing, stripping) match
only non-word characters and hence live inside the gaps between runs.
The tail of the pipeline therefore works on an alternating token list.
-/

/-- A token: a maximal word-character run or a gap of non-word characters. -/
inductive Tok where
  | run (r : List Char) : Tok
  | gap (g : List Char) : Tok
  deriving DecidableEq, Repr

/-- The characters of a token. -/
def Tok.chars : Tok → List Char
  | .run r => r
  | .gap g => g

/-- Flatten tokens back to text. -/
def detok (ts : List Tok) : List Char := (ts.map Tok.chars).flatten

/-- Split text into the alternating token list. -/
def tokenizeF : Nat → List Char → List Tok
  | 0, s => if s.isEmpty then [] else [.gap s]
  | f + 1, s =>
    match s with
    | [] => []
    | c :: cs =>
      if isWordC c then
        .run (c :: cs.takeWhile isWordC) :: tokenizeF f (cs.dropWhile isWordC)
      else
        .gap (c :: cs.takeWhile (fun d => !isWordC d)) ::
          tokenizeF f (cs.dropWhile (fun d => !isWordC d))

/-- Tokenize with sufficient fuel. -/
def tokenize (s : List Char) : List Tok := tokenizeF s.length s

/-- Prepend gap characters, merging with an adjacent gap so that token
lists stay alternating after deletions. -/
def consGap (g : List Char) : List Tok → List Tok
  | .gap g2 :: t => .gap (g ++ g2) :: t
  | t => if g.isEmpty then t else .gap g :: t

/-- The single-word fillers of `\b(um|uh|er|ah|like|you know)\b`. -/
def singleFillers : List (List Char) :=
  ["um", "uh", "er", "ah", "like"].map String.data

/-- `re.sub(r'\b(um|uh|er|ah|like|you know)\b', '', s, flags=re.IGNORECASE)`
on tokens.  A single-word alternative with `\b` on both sides matches
exactly a whole word run equal to it (case-insensitively); `you know`
matches a run `you`, a gap of exactly one space (the pattern's literal
space), and a run `know`.  Deleting matched characters leaves the
neighbouring gaps adjacent, which `consGap` merges. -/
def procFillersF : Nat → List Tok → List Tok
  | 0, _ => []
  | _ + 1, [] => []
  | f + 1, .gap g :: rest => consGap g (procFillersF f rest)
  | f + 1, .run r :: .gap g :: .run r2 :: rest2 =>
    if lowStr r ∈ singleFillers then procFillersF f (.gap g :: .run r2 :: rest2)
    else if lowStr r = "you".data && g = [' '] && lowStr r2 = "know".data then
      procFillersF f rest2
    else .run r :: procFillersF f (.gap g :: .run r2 :: rest2)
  | f + 1, .run r :: rest =>
    if lowStr r ∈ singleFillers then procFillersF f rest
    else .run r :: procFillersF f rest

/-- The filler pass with sufficient fuel. -/
def procFillers (ts : List Tok) : List Tok := procFillersF ts.length ts

/-- One spelling-correction pass
`re.sub(rf'\b{target}\b(?=\s+{la})', repl, s, flags=re.IGNORECASE)` on
tokens: a match is a whole word run equal to `target` (case-insensitively);
when a lookahead word `la` is required, the following gap must be nonempty
pure whitespace and the next run must start with `la`.  The replacement
(which contains an apostrophe) is spliced in as run/gap/run tokens. -/
def procCorrection (target : List Char) (repl : List Tok)
    (la : Option (List Char)) : List Tok → List Tok
  | [] => []
  | .gap g :: rest => .gap g :: procCorrection target repl la rest
  | .run r :: rest =>
    if lowStr r = target then
      match la with
      | none => repl ++ procCorrection target repl la rest
      | some w =>
        match rest with
        | .gap g :: .run r2 :: _ =>
          if g.all isWs && (icPrefixOf w r2).isSome then
            repl ++ procCorrection target repl la rest
          else .run r :: procCorrection target repl la rest
        | _ => .run r :: procCorrection target repl la rest
    else .run r :: procCorrection target repl la rest

/-- The replacement token lists of `_fix_common_errors` (each replacement
is literal lowercase text with one apostrophe). -/
def fixCommonErrors (ts : List Tok) : List Tok :=
  let t1 := procCorrection "theres".data
    [.run "there".data, .gap ['\''], .run "s".data] none ts
  let t2 := procCorrection "were".data
    [.run "we".data, .gap ['\''], .run "re".data] (some "going".data) t1
  let t3 := procCorrection "its".data
    [.run "it".data, .gap ['\''], .run "s".data] (some "a".data) t2
  let t4 := procCorrection "youve".data
    [.run "you".data, .gap ['\''], .run "ve".data] none t3
  let t5 := procCorrection "weve".data
    [.run "we".data, .gap ['\''], .run "ve".data] none t4
  procCorrection "theyre".data
    [.run "they".data, .gap ['\''], .run "re".data] none t5

/-- `re.sub(r'\s*,\s*,', ',', g)` inside one gap (the pattern has no word
characters, so matches are confined to gaps).  At each position: maximal
whitespace, a comma, maximal whitespace, a comma; greediness is decisive
as before. -/
def fixCommasF : Nat → List Char → List Char
  | 0, s => s
  | f + 1, s =>
    match s with
    | [] => []
    | c :: cs =>
      match (s.dropWhile isWs) with
      | ',' :: t1 =>
        match t1.dropWhile isWs with
        | ',' :: t2 => ',' :: fixCommasF f t2
        | _ => c :: fixCommasF f cs
      | _ => c :: fixCommasF f cs

/-- `re.sub(r'\s*\?\s*', '?', g)` inside one gap. -/
def fixQMarksF : Nat → List Char → List Char
  | 0, s => s
  | f + 1, s =>
    match s with
    | [] => []
    | c :: cs =>
      match (s.dropWhile isWs) with
      | '?' :: t1 => '?' :: fixQMarksF f (t1.dropWhile isWs)
      | _ => c :: fixQMarksF f cs

/-- Apply a gap rewriting to every gap token. -/
def mapGaps (f : List Char → List Char) : List Tok → List Tok
  | [] => []
  | .gap g :: rest => .gap (f g) :: mapGaps f rest
  | .run r :: rest => .run r :: mapGaps f rest

/-- Drop leading whitespace of the first token if it is a gap (runs hold
no whitespace, so `str.strip` touches only edge gaps). -/
def stripLeadToks : List Tok → List Tok
  | .gap g :: rest =>
    let g' := g.dropWhile isWs
    if g'.isEmpty then rest else .gap g' :: rest
  | ts => ts

/-- Drop trailing whitespace of the last token if it is a gap. -/
def stripTrailToks : List Tok → List Tok
  | [] => []
  | [.gap g] =>
    let g' := (g.reverse.dropWhile isWs).reverse
    if g'.isEmpty then [] else [.gap g']
  | t :: rest => t :: stripTrailToks rest

/-- Passes 1-4 of `TranscriptProcessor.clean_transcript` in source order:
whitespace collapse of the stripped input, timestamp removal, line-start
caps tags, inline role tags. -/
def cleanStage4 (raw : List Char) : List Char :=
  let s1 := collapseWs (pyStrip raw)
  let s2 := removeTimestampsF s1.length s1
  let s3 := removeCapsTagsF s2.length true s2
  removeRoleTagsF s3.length none s3

/-- Passes 5-6 (fillers, then the six spelling corrections) on the
tokenized text. -/
def cleanToks6 (raw : List Char) : List Tok :=
  fixCommonErrors (procFillers (tokenize (cleanStage4 raw)))

/-- Pass 7, comma repair: the pattern is confined to gaps. -/
def cleanToks7 (raw : List Char) : List Tok :=
  mapGaps (fun g => fixCommasF g.length g) (cleanToks6 raw)

/-- Pass 8, question-mark repair: the pattern is confined to gaps. -/
def cleanToks8 (raw : List Char) : List Tok :=
  mapGaps (fun g => fixQMarksF g.length g) (cleanToks7 raw)

/-- Pass 9, the final whitespace collapse: `\s+` never crosses a word
run, so it too acts gap by gap. -/
def cleanToks9 (raw : List Char) : List Tok :=
  mapGaps collapseWs (cleanToks8 raw)

/-- The token list of the cleaned transcript: pass 10 is the final
`strip`, which only erodes whitespace at the two edge gaps. -/
def cleanToks (raw : List Char) : List Tok :=
  stripTrailToks (stripLeadToks (cleanToks9 raw))

/-- `TranscriptProcessor.clean_transcript`, the ten passes in source
order. -/
def cleanChars (raw : List Char) : List Char :=
  detok (cleanToks raw)

/-- `clean_transcript` on `String`. -/
def cleanTranscript (raw : String) : String := ⟨cleanChars raw.data⟩

/-!
### The script generator (`script_generator.py`)

Configuration dictionaries are embedded as structures whose fields are
`Option`-wrapped: `none` models an absent key, so that Python's
`d.get(k, default)` becomes `Option.getD`.  A `PyStr` is a present string
value or Python's `None` (which `dict.get` returns untouched even when a
default is supplied, and which an f-string renders as `"None"`). -/
inductive PyStr where
  | none : PyStr
  | str (s : String) : PyStr
  deriving DecidableEq, Repr

/-- Rendering inside a Python f-string. -/
def PyStr.render : PyStr → String
  | .none => "None"
  | .str s => s

/-- ASCII uppercasing. -/
def upChar (c : Char) : Char :=
  if isLowerC c then Char.ofNat (c.toNat - 32) else c

/-- Python `str.upper()` (ASCII fragment). -/
def pyUpper (s : String) : String := ⟨s.data.map upChar⟩

/-- Python `str.strip()` on `String`. -/
def pyStripS (s : String) : String := ⟨pyStrip s.data⟩

/-- Python `str.title()` on the all-lowercase single keywords it is
applied to: uppercase the first character, lowercase the rest. -/
def pyTitle (s : String) : String :=
  match s.data with
  | [] => ""
  | c :: cs => ⟨upChar c :: cs.map lowChar⟩

/-- The `speakers` sub-dictionary of a show configuration. -/
structure SpeakersCfg where
  format : Option PyStr
  host_name : Option PyStr
  guest_name : Option PyStr
  co_host_name : Option PyStr
  participants : Option (List String)
  deriving DecidableEq, Repr

/-- The empty dictionary `{}` used by `.get('speakers', {})`. -/
def emptySpeakers : SpeakersCfg :=
  { format := Option.none, host_name := Option.none, guest_name := Option.none
    co_host_name := Option.none, participants := Option.none }

/-- A show configuration dictionary. -/
structure ShowConfig where
  show_name : Option PyStr
  host_name : Option PyStr
  show_tagline : Option PyStr
  episode_format : Option PyStr
  target_duration : Option Int
  intro_music_duration : Option Int
  outro_music_duration : Option Int
  sponsor_segments : Option Bool
  call_to_action : Option Bool
  speakers : Option SpeakersCfg
  deriving DecidableEq, Repr

/-- `PodcastScriptGenerator._default_show_config`.  Note that the
`speakers` keys `guest_name` and `co_host_name` are present with value
`None` (not absent). -/
def defaultShowConfig : ShowConfig :=
  { show_name := some (.str "AI Insights Podcast")
    host_name := some (.str "Your Host")
    show_tagline := some (.str "Exploring the future of artificial intelligence")
    episode_format := some (.str "interview")
    target_duration := some 30
    intro_music_duration := some 10
    outro_music_duration := some 15
    sponsor_segments := some false
    call_to_action := some true
    speakers := some
      { format := some (.str "single_host")
        host_name := some (.str "Your Host")
        guest_name := some PyStr.none
        co_host_name := some PyStr.none
        participants := some [] } }

/-- A segment dictionary as consumed by the generator (each key may be
absent; the generator reads every key through `.get`). -/
structure PSeg where
  id : Option Int
  text : Option String
  word_count : Option Int
  estimated_duration : Option ℚ
  topic_keywords : Option (List String)
  segment_type : Option String
  deriving DecidableEq, Repr

/-- A processed-transcript dictionary (the generator only reads
`.get('segments', [])`). -/
structure PTranscript where
  segments : Option (List PSeg)
  deriving DecidableEq, Repr

/-- The resolved speaker configuration; all keys present. -/
structure SpeakerConfig where
  format : PyStr
  host_name : PyStr
  guest_name : PyStr
  co_host_name : PyStr
  participants : List String
  deriving DecidableEq, Repr

/-- `PodcastScriptGenerator._determine_speaker_format`. -/
def determineSpeakerFormat (cfg : ShowConfig) (pt : PTranscript) : SpeakerConfig :=
  let sp := cfg.speakers.getD emptySpeakers
  let formatType := sp.format.getD (.str "single_host")
  let segs := pt.segments.getD []
  let qaSegs := segs.filter (fun s => s.segment_type == some "qa")
  let formatType' :=
    if qaSegs.length > 2 && formatType == .str "single_host" then PyStr.str "interview"
    else formatType
  { format := formatType'
    host_name := sp.host_name.getD (.str "HOST")
    guest_name := sp.guest_name.getD (.str "GUEST")
    co_host_name := sp.co_host_name.getD (.str "CO-HOST")
    participants := sp.participants.getD [] }

/-- The preview items of `_generate_episode_preview` (first 4 segments). -/
def episodePreviewItems (segs : List PSeg) : List String :=
  (segs.take 4).flatMap fun s =>
    if s.segment_type == some "data" then ["some surprising statistics"]
    else if s.segment_type == some "narrative" then ["a compelling case study"]
    else if s.segment_type == some "qa" then ["answers to important questions"]
    else
      match s.topic_keywords with
      | some (k :: _) => ["insights about " ++ k]
      | _ => []

/-- The joining rule of `_generate_episode_preview`: Oxford-style
`A, B, and C` for three or more items, `A and B` for two, the bare item
for one, a fixed fallback for none. -/
def previewJoin (items : List String) : String :=
  if 3 ≤ items.length then
    String.intercalate ", " items.dropLast ++ ", and " ++ (items.getLast?.getD "")
  else if items.length = 2 then
    (items.head?.getD "") ++ " and " ++ (items.getLast?.getD "")
  else
    match items with
    | i :: _ => i
    | [] => "fascinating insights"

/-- `PodcastScriptGenerator._generate_episode_preview`. -/
def generateEpisodePreview (segs : List PSeg) : String :=
  previewJoin (episodePreviewItems segs)

/-- A music-cue dictionary (heterogeneous keys across cues). -/
structure MusicCue where
  type : String
  duration : Option Int
  timing : Option String
  deriving DecidableEq, Repr

/-- The intro section record. -/
structure IntroSec where
  script : String
  estimated_duration : ℚ
  music_cues : List MusicCue
  topics_preview : List String
  format : PyStr
  deriving DecidableEq, Repr

/-- `PodcastScriptGenerator._generate_intro`. -/
def generateIntro (cfg : ShowConfig) (pt : PTranscript) (sc : SpeakerConfig) : IntroSec :=
  let segs := pt.segments.getD []
  let formatType := sc.format
  let hn := sc.host_name.render
  let mainTopics := (segs.take 3).flatMap fun s =>
    match s.topic_keywords with
    | some (k :: ks) => (k :: ks).take 2
    | _ => []
  let mus := toString (cfg.intro_music_duration.getD 10)
  let shw := (cfg.show_name.getD (.str "our podcast")).render
  let tagline := (cfg.show_tagline.getD (.str "we explore interesting topics")).render
  let topicsPart :=
    if mainTopics.isEmpty then "cutting-edge developments"
    else String.intercalate ", " (mainTopics.take 3)
  let preview := generateEpisodePreview segs
  let script :=
    if formatType == .str "interview" then
      let gn := sc.guest_name.render
      pyStripS ("\n[INTRO MUSIC - " ++ mus ++ " seconds]\n\n" ++ hn
        ++ ": Welcome back to " ++ shw ++ ", I'm " ++ hn
        ++ ", \nand this is the show where " ++ tagline ++ ".\n\n[MUSIC FADES]\n\n"
        ++ hn ++ ": Today I'm joined by our special guest to dive deep into some fascinating insights about \n"
        ++ topicsPart ++ ". \n\n"
        ++ hn ++ ": We'll explore " ++ preview
        ++ ", and by the end of our conversation, \nyou'll have a much clearer understanding of how these developments might impact your world.\n\n"
        ++ gn ++ ": Thanks for having me on the show. I'm excited to share some insights about this topic.\n\n"
        ++ hn ++ ": Absolutely! Let's jump right in.\n\n[TRANSITION SOUND]\n            ")
    else if formatType == .str "multi_host" then
      let cn := sc.co_host_name.render
      pyStripS ("\n[INTRO MUSIC - " ++ mus ++ " seconds]\n\n" ++ hn
        ++ ": Welcome back to " ++ shw ++ ", I'm " ++ hn ++ "...\n\n"
        ++ cn ++ ": ...and I'm " ++ cn ++ ", and this is the show where " ++ tagline
        ++ ".\n\n[MUSIC FADES]\n\n"
        ++ hn ++ ": In today's episode, we're diving deep into some fascinating insights about \n"
        ++ topicsPart ++ ".\n\n"
        ++ cn ++ ": That's right! We'll explore " ++ preview
        ++ ", and by the end of this episode, \nyou'll have a much clearer understanding of how these developments might impact your world.\n\n"
        ++ hn ++ ": So let's jump right in.\n\n[TRANSITION SOUND]\n            ")
    else
      pyStripS ("\n[INTRO MUSIC - " ++ mus ++ " seconds]\n\n" ++ hn
        ++ ": Welcome back to " ++ shw ++ ", I'm " ++ hn
        ++ ", \nand this is the show where " ++ tagline ++ ".\n\n[MUSIC FADES]\n\n"
        ++ hn ++ ": In today's episode, we're diving deep into some fascinating insights about \n"
        ++ topicsPart ++ ". \n\n"
        ++ hn ++ ": We'll explore " ++ preview
        ++ ", and by the end of this episode, \nyou'll have a much clearer understanding of how these developments might impact your world.\n\n[TRANSITION SOUND]\n\n"
        ++ hn ++ ": So let's jump right in.\n            ")
  { script := script
    estimated_duration := 3/2
    music_cues :=
      [{ type := "intro_music", duration := some (cfg.intro_music_duration.getD 10),
         timing := Option.none },
       { type := "transition_sound", duration := Option.none, timing := some "after_preview" }]
    topics_preview := mainTopics.take 3
    format := formatType }

/-!
### Speech naturalization (`_add_natural_speech_patterns`)
-/

/-- The emphasis words of `re.sub(r'\b(really|very|extremely)\b', ...)`. -/
def emphasisWords : List (List Char) := ["really", "very", "extremely"].map String.data

/-- The emphasis substitution on tokens: the alternatives are all-letter
words with `\b` on both sides, so matches are exactly the word runs equal
to them (case-insensitively); the replacement `[EMPHASIS] \1` reinserts
the matched text after the marker. -/
def emphasizeToks : List Tok → List Tok
  | [] => []
  | .gap g :: rest => .gap g :: emphasizeToks rest
  | .run r :: rest =>
    if lowStr r ∈ emphasisWords then
      .gap ['['] :: .run "EMPHASIS".data :: .gap [']', ' '] :: .run r :: emphasizeToks rest
    else .run r :: emphasizeToks rest

/-- `re.sub(r'\b(really|very|extremely)\b', r'[EMPHASIS] \1', text,
flags=re.IGNORECASE)`. -/
def emphasize (s : List Char) : List Char := detok (emphasizeToks (tokenize s))

/-- Python `text.split('\n')`. -/
def splitNlAux : List Char → List Char → List (List Char)
  | acc, '\n' :: rest => acc.reverse :: splitNlAux [] rest
  | acc, c :: rest => splitNlAux (c :: acc) rest
  | acc, [] => [acc.reverse]

/-- `text.split('\n')`. -/
def splitNl (s : List Char) : List (List Char) := splitNlAux [] s

/-- `re.match(r'([A-Z-]+):\s*', line.strip())` as a Boolean: a nonempty
maximal run of uppercase letters or hyphens at the start of the stripped
line, followed by a colon (greediness is decisive as usual; the trailing
`\s*` always succeeds). -/
def isSpeakerLabelLine (l : List Char) : Bool :=
  let st := pyStrip l
  let run := st.takeWhile (fun c => isUpperC c || c = '-')
  !run.isEmpty &&
    match st.dropWhile (fun c => isUpperC c || c = '-') with
    | ':' :: _ => true
    | _ => false

/-- `line.strip().startswith('[') and line.strip().endswith(']')`. -/
def isCueLine (l : List Char) : Bool :=
  let st := pyStrip l
  (match st with
   | '[' :: _ => true
   | _ => false) &&
  (match st.getLast? with
   | some ']' => true
   | _ => false)

/-- `re.sub(r'([.!?])\s+([A-Z])', r'\1\n\n[NATURAL PAUSE]\n\n\2', line)`:
sentence punctuation, at least one whitespace character, then an uppercase
letter; scanning continues after the matched uppercase letter. -/
def pauseSubF : Nat → List Char → List Char
  | 0, s => s
  | f + 1, s =>
    match s with
    | [] => []
    | c :: cs =>
      if c = '.' || c = '!' || c = '?' then
        match cs.dropWhile isWs with
        | u :: rest2 =>
          if (cs.takeWhile isWs).isEmpty = false && isUpperC u then
            c :: ("\n\n[NATURAL PAUSE]\n\n".data ++ (u :: pauseSubF f rest2))
          else c :: pauseSubF f cs
        | [] => c :: pauseSubF f cs
      else c :: pauseSubF f cs

/-- The per-line step of `_add_natural_speech_patterns`: speaker-label
lines and bracketed production cues pass unchanged; other lines get the
pause insertion. -/
def processLine (l : List Char) : List Char :=
  if isSpeakerLabelLine l then l
  else if isCueLine l then l
  else pauseSubF l.length l

/-- `PodcastScriptGenerator._add_natural_speech_patterns`: the emphasis
substitution on the whole text, then the pause insertion line by line with
speaker-label and cue lines preserved. -/
def addNaturalSpeechPatterns (text : List Char) : List Char :=
  (((splitNl (emphasize text)).map processLine).intersperse ['\n']).flatten

/-- `_add_natural_speech_patterns` on `String`. -/
def addNaturalS (s : String) : String := ⟨addNaturalSpeechPatterns s.data⟩

/-- `PodcastScriptGenerator._polish_segment_content`: the
`(segment_type × speaker_format)` template table, followed by the
naturalization pass. -/
def polishSegmentContent (seg : PSeg) (sc : SpeakerConfig) : String :=
  let rawText := seg.text.getD ""
  let segType := seg.segment_type.getD "content"
  let hn := sc.host_name.render
  let polished :=
    if sc.format == .str "interview" then
      let gn := sc.guest_name.render
      if segType = "data" then
        pyStripS ("\n" ++ hn ++ ": Now, here's something that really caught my attention. "
          ++ rawText ++ "\n\n"
          ++ hn ++ ": Let me break that down for you - because these numbers tell a really important story.\n\n"
          ++ gn ++ ": Exactly, and what's particularly interesting about these statistics is how they reveal the underlying trends we've been discussing.\n\n[PAUSE FOR EMPHASIS]\n                ")
      else if segType = "narrative" then
        pyStripS ("\n" ++ hn ++ ": Let me share a story that perfectly illustrates this point. "
          ++ rawText ++ "\n\n"
          ++ gn ++ ": That's a perfect example. And this isn't just one isolated case - we're seeing this pattern emerge across the industry.\n\n"
          ++ hn ++ ": Absolutely. What does this tell us about where we're heading?\n                ")
      else if segType = "qa" then
        pyStripS ("\n" ++ hn ++ ": Now, you might be wondering... " ++ rawText ++ "\n\n"
          ++ gn ++ ": It's a great question, and the answer might surprise you.\n\n"
          ++ hn ++ ": I have to say, when I first learned about this, it completely changed my perspective.\n                ")
      else
        pyStripS ("\n" ++ hn ++ ": " ++ rawText ++ "\n\n"
          ++ gn ++ ": That's really insightful. Can you elaborate on that?\n\n"
          ++ hn ++ ": [NATURAL PAUSE] Absolutely, let me dive deeper into that.\n                ")
    else if sc.format == .str "multi_host" then
      let cn := sc.co_host_name.render
      if segType = "data" then
        pyStripS ("\n" ++ hn ++ ": Now, here's something that really caught my attention. "
          ++ rawText ++ "\n\n"
          ++ cn ++ ": Wow, those numbers are really striking. \n\n"
          ++ hn ++ ": Right? Let me break that down for our listeners - because these numbers tell a really important story.\n\n[PAUSE FOR EMPHASIS]\n                ")
      else if segType = "narrative" then
        pyStripS ("\n" ++ hn ++ ": Let me share a story that perfectly illustrates this point. "
          ++ rawText ++ "\n\n"
          ++ cn ++ ": That's such a compelling example. And this isn't just one isolated case, is it?\n\n"
          ++ hn ++ ": Not at all - we're seeing this pattern emerge across the industry.\n                ")
      else
        pyStripS ("\n" ++ hn ++ ": " ++ rawText ++ "\n\n"
          ++ cn ++ ": That's really interesting. What do you think about that?\n\n"
          ++ hn ++ ": [NATURAL PAUSE] It really makes you think about the broader implications.\n                ")
    else
      if segType = "data" then
        pyStripS ("\n" ++ hn ++ ": Now, here's something that really caught my attention. "
          ++ rawText ++ "\n\n[PAUSE FOR EMPHASIS]\n\n"
          ++ hn ++ ": Let me break that down for you - because these numbers tell a really important story.\n                ")
      else if segType = "narrative" then
        pyStripS ("\n" ++ hn ++ ": Let me share a story that perfectly illustrates this point. "
          ++ rawText ++ "\n\n"
          ++ hn ++ ": And this isn't just one isolated example - we're seeing this pattern emerge across the industry.\n                ")
      else if segType = "qa" then
        pyStripS ("\n" ++ hn ++ ": Now, you might be wondering... " ++ rawText ++ "\n\n"
          ++ hn ++ ": It's a great question, and the answer might surprise you.\n                ")
      else
        pyStripS ("\n" ++ hn ++ ": " ++ rawText ++ "\n\n[NATURAL PAUSE]\n                ")
  addNaturalS polished

/-- `PodcastScriptGenerator._generate_production_notes`. -/
def generateProductionNotes (seg : PSeg) : List String :=
  (if seg.segment_type == some "data" then
    ["Consider adding subtle background music for statistics",
     "Emphasize key numbers with vocal inflection"]
   else []) ++
  (if seg.estimated_duration.getD 0 > 3 then
    ["Long segment - consider adding a mid-segment music break"]
   else []) ++
  (if 5 < (seg.topic_keywords.getD []).length then
    ["Dense content - speak slower and add extra pauses"]
   else [])

/-- A polished main-content block. -/
structure ContentBlock where
  segment_id : Int
  type : String
  script : String
  estimated_duration : ℚ
  production_notes : List String
  keywords : List String
  deriving DecidableEq, Repr

/-- `PodcastScriptGenerator._generate_main_content`. -/
def generateMainContent (pt : PTranscript) (sc : SpeakerConfig) : List ContentBlock :=
  (pt.segments.getD []).enum.map fun iseg =>
    { segment_id := iseg.2.id.getD (iseg.1 + 1)
      type := iseg.2.segment_type.getD "content"
      script := polishSegmentContent iseg.2 sc
      estimated_duration := iseg.2.estimated_duration.getD 2
      production_notes := generateProductionNotes iseg.2
      keywords := iseg.2.topic_keywords.getD [] }

/-- A transition record. -/
structure Transition where
  between_segments : Option Int × Option Int
  script : String
  audio_cue : String
  deriving DecidableEq, Repr

/-- `PodcastScriptGenerator._create_transition_script`. -/
def createTransitionScript (cur next : PSeg) : String :=
  let currentType := cur.segment_type.getD "content"
  let nextType := next.segment_type.getD "content"
  if currentType = "data" && nextType = "narrative" then
    "HOST: Now, let me show you what this looks like in practice."
  else if currentType = "narrative" && nextType = "data" then
    "HOST: The numbers behind this story are equally compelling."
  else if currentType = "introduction" && nextType = "content" then
    "[TRANSITION MUSIC - 3 seconds]"
  else
    "HOST: But there's more to this story."

/-- `PodcastScriptGenerator._suggest_audio_cue`. -/
def suggestAudioCue (cur next : PSeg) : String :=
  if cur.segment_type == some "data" then "soft_chime"
  else if next.segment_type == some "narrative" then "gentle_whoosh"
  else "subtle_transition"

/-- `PodcastScriptGenerator._generate_transitions`: one transition per
adjacent pair. -/
def generateTransitions (pt : PTranscript) : List Transition :=
  let segs := pt.segments.getD []
  (segs.zip segs.tail).map fun cn =>
    { between_segments := (cn.1.id, cn.2.id)
      script := createTransitionScript cn.1 cn.2
      audio_cue := suggestAudioCue cn.1 cn.2 }

/-- `PodcastScriptGenerator._generate_key_takeaway`. -/
def generateKeyTakeaway (segs : List PSeg) : String :=
  if segs.isEmpty then "The future is full of exciting possibilities."
  else
    let hasData := segs.any (fun s => s.segment_type == some "data")
    let hasNarrative := segs.any (fun s => s.segment_type == some "narrative")
    if hasData && hasNarrative then
      "The data tells a clear story, and the real-world examples show us exactly how this impacts our daily lives."
    else if hasData then
      "The numbers don't lie - we're witnessing a significant shift that deserves our attention."
    else
      "These insights give us a glimpse into what the future might hold."

/-- The outro section record. -/
structure OutroSec where
  script : String
  estimated_duration : ℚ
  music_cues : List MusicCue
  call_to_action : Bool
  format : PyStr
  deriving DecidableEq, Repr

/-- `PodcastScriptGenerator._generate_outro`. -/
def generateOutro (cfg : ShowConfig) (pt : PTranscript) (sc : SpeakerConfig) : OutroSec :=
  let segs := pt.segments.getD []
  let hn := sc.host_name.render
  let keyTopics := segs.flatMap fun s =>
    match s.topic_keywords with
    | some (k :: _) => [k]
    | _ => []
  let uniqueTopics := (pySetList keyTopics).take 3
  let topicsPart :=
    if uniqueTopics.isEmpty then "these fascinating developments"
    else String.intercalate ", " uniqueTopics
  let takeaway := generateKeyTakeaway segs
  let shw := (cfg.show_name.getD (.str "our podcast")).render
  let outroMus := toString (cfg.outro_music_duration.getD 30)
  let script :=
    if sc.format == .str "interview" then
      let gn := sc.guest_name.render
      pyStripS ("\n[TRANSITION MUSIC - 5 seconds]\n\n"
        ++ hn ++ ": So there you have it - we've covered a lot of ground today, from \n"
        ++ topicsPart ++ " \nand everything in between.\n\n"
        ++ gn ++ ": It's been a pleasure discussing these topics with you. There's so much happening in this space.\n\n"
        ++ hn ++ ": Absolutely! The key takeaway? " ++ takeaway ++ "\n\n[PAUSE]\n\n"
        ++ hn ++ ": Before we wrap up, where can our listeners learn more about your work?\n\n"
        ++ gn ++ ": You can find me [GUEST CONTACT INFO TO BE FILLED].\n\n"
        ++ hn ++ ": Perfect! And if you found today's conversation valuable, please subscribe to "
        ++ shw ++ " \nwherever you get your podcasts, and leave us a review.\n\n"
        ++ hn ++ ": Next week, we'll be diving into [NEXT EPISODE TEASER], so make sure you're subscribed.\n\n"
        ++ hn ++ ": Thanks again for joining us today!\n\n"
        ++ gn ++ ": Thanks for having me!\n\n"
        ++ hn ++ ": I'm " ++ hn ++ ", thanks for listening to " ++ shw ++ ".\n\n[OUTRO MUSIC - "
        ++ outroMus ++ " seconds]\n            ")
    else if sc.format == .str "multi_host" then
      let cn := sc.co_host_name.render
      pyStripS ("\n[TRANSITION MUSIC - 5 seconds]\n\n"
        ++ hn ++ ": So there you have it - we've covered a lot of ground today, from \n"
        ++ topicsPart ++ " \nand everything in between.\n\n"
        ++ cn ++ ": The key takeaway? " ++ takeaway ++ "\n\n[PAUSE]\n\n"
        ++ hn ++ ": If you found today's episode valuable, please subscribe to "
        ++ shw ++ " \nwherever you get your podcasts, and leave us a review.\n\n"
        ++ cn ++ ": And next week, we'll be diving into [NEXT EPISODE TEASER], so make sure you're subscribed.\n\n"
        ++ hn ++ ": Until then, keep exploring, keep questioning...\n\n"
        ++ cn ++ ": ...and keep pushing the boundaries of what's possible.\n\n"
        ++ hn ++ ": I'm " ++ hn ++ "...\n\n"
        ++ cn ++ ": ...and I'm " ++ cn ++ ", thanks for listening to " ++ shw ++ ".\n\n[OUTRO MUSIC - "
        ++ outroMus ++ " seconds]\n            ")
    else
      pyStripS ("\n[TRANSITION MUSIC - 5 seconds]\n\n"
        ++ hn ++ ": So there you have it - we've covered a lot of ground today, from \n"
        ++ topicsPart ++ " \nand everything in between.\n\n"
        ++ hn ++ ": The key takeaway? " ++ takeaway ++ "\n\n[PAUSE]\n\n"
        ++ hn ++ ": If you found today's episode valuable, please subscribe to "
        ++ shw ++ " \nwherever you get your podcasts, and leave us a review - it really helps other listeners \ndiscover the show.\n\n"
        ++ hn ++ ": Next week, we'll be diving into [NEXT EPISODE TEASER], so make sure you're subscribed \nso you don't miss it.\n\n"
        ++ hn ++ ": Until then, keep exploring, keep questioning, and keep pushing the boundaries of \nwhat's possible.\n\n"
        ++ hn ++ ": I'm " ++ hn ++ ", thanks for listening to " ++ shw ++ ".\n\n[OUTRO MUSIC - "
        ++ outroMus ++ " seconds]\n            ")
  { script := script
    estimated_duration := 2
    music_cues :=
      [{ type := "transition_music", duration := some 5, timing := Option.none },
       { type := "outro_music", duration := some (cfg.outro_music_duration.getD 30),
         timing := Option.none }]
    call_to_action := true
    format := sc.format }

/-!
### Show notes and metadata
-/

/-- Python `int()` on the nonnegative clock values that arise here
(truncation toward zero coincides with the floor). -/
def pyInt (q : ℚ) : ℤ := ⌊q⌋

/-- Python `f"{n:02d}"`. -/
def pad2 (n : ℤ) : String :=
  if 0 ≤ n && n < 10 then "0" ++ toString n else toString n

/-- `f"{int(t):02d}:{int((t % 1) * 60):02d}"` (`t % 1 = t - ⌊t⌋` in
Python). -/
def fmtClock (t : ℚ) : String :=
  pad2 (pyInt t) ++ ":" ++ pad2 (pyInt ((t - ⌊t⌋) * 60))

/-- `PodcastScriptGenerator._create_timestamp_description`. -/
def createTimestampDescription (seg : PSeg) : String :=
  let text := seg.text.getD ""
  if 100 < text.length then text.take 100 ++ "..." else text

/-- `re.split(r'[.!?]', text)`: split at every sentence-ending character. -/
def splitSentAux : List Char → List Char → List (List Char)
  | acc, c :: rest =>
    if c = '.' || c = '!' || c = '?' then acc.reverse :: splitSentAux [] rest
    else splitSentAux (c :: acc) rest
  | acc, [] => [acc.reverse]

/-- `re.split(r'[.!?]', text)` (always at least one piece). -/
def splitSent (s : List Char) : List (List Char) := splitSentAux [] s

/-- `PodcastScriptGenerator._extract_key_point`. -/
def extractKeyPoint (seg : PSeg) : String :=
  let text := seg.text.getD ""
  match splitSent text.data with
  | s0 :: _ =>
    if 20 < s0.length then String.mk (pyStrip s0) ++ "."
    else if 150 < text.length then text.take 150 ++ "..."
    else text
  | [] => if 150 < text.length then text.take 150 ++ "..." else text

/-- A timestamp entry of the show notes. -/
structure TimestampEntry where
  time : String
  topic : String
  description : String
  deriving DecidableEq, Repr

/-- The show-notes record. -/
structure ShowNotes where
  episode_summary : String
  key_points : List String
  timestamps : List TimestampEntry
  resources : List (String × String)
  guest_info : Option String
  social_media_snippets : List String
  deriving DecidableEq, Repr

/-- The up-to-four unique topics over the first five segments used by
`_generate_episode_summary`. -/
def summaryTopics (segs : List PSeg) : List String :=
  let topics := (segs.take 5).flatMap fun s =>
    match s.topic_keywords with
    | some (k :: _) => [k]
    | _ => []
  (pySetList topics).take 4

/-- `PodcastScriptGenerator._generate_episode_summary`: topics from the
first five segments (one keyword each), up to four unique ones, joined
with `', '` between all but the last and `' and '` before the last. -/
def generateEpisodeSummary (segs : List PSeg) : String :=
  if segs.isEmpty then
    "An insightful discussion about current developments and their implications."
  else
    match summaryTopics segs with
    | [] => "A comprehensive discussion covering important developments and insights."
    | uniqueTopics =>
      "In this episode, we explore " ++ String.intercalate ", " uniqueTopics.dropLast
        ++ " and " ++ (uniqueTopics.getLast?.getD "")
        ++ ", examining their impact and implications for the future."

/-- The running show-notes loop: timestamps (clock starting at 1.5) and
key points for data/narrative segments, in segment order. -/
def showNotesLoop : ℚ → List PSeg → List TimestampEntry × List String
  | _, [] => ([], [])
  | t, seg :: rest =>
    let dur := seg.estimated_duration.getD 2
    let entry : TimestampEntry :=
      { time := fmtClock t
        topic :=
          match seg.topic_keywords with
          | some (k :: _) => k
          | _ => "Discussion"
        description := createTimestampDescription seg }
    let tk := showNotesLoop (t + dur) rest
    (entry :: tk.1,
     (if seg.segment_type == some "data" || seg.segment_type == some "narrative" then
        [extractKeyPoint seg]
      else []) ++ tk.2)

/-- `PodcastScriptGenerator._suggest_resources`. -/
def suggestResources : List (String × String) :=
  [("Research Paper on AI Development", "https://example.com/research"),
   ("Industry Report 2024", "https://example.com/report"),
   ("Expert Interview Series", "https://example.com/interviews")].take 3

/-- `PodcastScriptGenerator._generate_social_snippets`. -/
def generateSocialSnippets (cfg : ShowConfig) : List String :=
  let shw := (cfg.show_name.getD (.str "our podcast")).render
  ["🎙️ New episode of " ++ shw ++ " is live! We dive deep into cutting-edge developments and their real-world impact.",
   "💡 Key insight from today's episode: The future is closer than we think!",
   "📊 The numbers might surprise you - listen to our latest episode to find out why."]

/-- `PodcastScriptGenerator._generate_show_notes`. -/
def generateShowNotes (cfg : ShowConfig) (pt : PTranscript) : ShowNotes :=
  let segs := pt.segments.getD []
  let tk := showNotesLoop (3/2) segs
  { episode_summary := generateEpisodeSummary segs
    key_points := tk.2
    timestamps := tk.1
    resources := suggestResources
    guest_info := Option.none
    social_media_snippets := generateSocialSnippets cfg }

/-- `PodcastScriptGenerator._generate_episode_title`: most frequent
keyword by first-maximum over the counts dictionary (whose iteration
order is keyword first-occurrence order). -/
def generateEpisodeTitle (segs : List PSeg) : String :=
  if segs.isEmpty then "Exploring New Frontiers"
  else
    let allKeywords := segs.flatMap fun s =>
      match s.topic_keywords with
      | some (k :: ks) => k :: ks
      | _ => []
    let counts := (pySetList allKeywords).map fun k => (k, allKeywords.count k)
    match counts with
    | [] => "Innovation and Impact"
    | c0 :: crest =>
      let top := crest.foldl (fun cur cand => if cand.2 > cur.2 then cand else cur) c0
      "The Future of " ++ pyTitle top.1

/-- The metadata record. -/
structure Metadata where
  episode_number : Option Int
  title : String
  description : String
  duration : String
  tags : List String
  category : String
  explicit : Bool
  publication_date : String
  deriving DecidableEq, Repr

/-- `PodcastScriptGenerator._extract_all_keywords` (set union across
segments; first-occurrence order as for `pySetList`). -/
def extractAllKeywords (segs : List PSeg) : List String :=
  (pySetList (segs.flatMap fun s => s.topic_keywords.getD [])).take 10

/-- `PodcastScriptGenerator._generate_metadata` (`nowIso` stands for
`datetime.now().isoformat()`). -/
def generateMetadata (nowIso : String) (pt : PTranscript) : Metadata :=
  let segs := pt.segments.getD []
  let totalDuration := (segs.map (fun s => s.estimated_duration.getD 2)).sum + 7/2
  { episode_number := Option.none
    title := "Deep Dive: " ++ generateEpisodeTitle segs
    description := generateEpisodeSummary segs
    duration := fmtClock totalDuration
    tags := extractAllKeywords segs
    category := "Technology"
    explicit := false
    publication_date := nowIso }

/-- All script sections. -/
structure ScriptSections where
  intro : IntroSec
  main_content : List ContentBlock
  transitions : List Transition
  outro : OutroSec
  show_notes : ShowNotes
  metadata : Metadata
  speaker_config : SpeakerConfig
  deriving DecidableEq, Repr

/-- `PodcastScriptGenerator._calculate_total_duration`. -/
def calculateTotalDuration (sections : ScriptSections) : ℚ :=
  roundTo2 (sections.intro.estimated_duration
    + (sections.main_content.map (fun c => c.estimated_duration)).sum
    + sections.outro.estimated_duration
    + sections.transitions.length * (1/10))

/-- The main-content part of `_assemble_final_script`: each block with its
production notes, interleaved with the transition that follows it (none
after the last block, and none once transitions run out). -/
def assembleMain : List ContentBlock → List Transition → List String
  | [], _ => []
  | cb :: rest, trs =>
    ["--- Segment " ++ toString cb.segment_id ++ " (" ++ pyUpper cb.type ++ ") ---",
     cb.script]
    ++ (if cb.production_notes.isEmpty then []
        else ["", "PRODUCTION NOTES:"] ++ cb.production_notes.map (fun n => "- " ++ n))
    ++ [""]
    ++ (match rest, trs with
        | _ :: _, tr :: trs' =>
          ["--- TRANSITION ---", tr.script, ""] ++ assembleMain rest trs'
        | _, _ => assembleMain rest trs)

/-- `PodcastScriptGenerator._assemble_final_script` (`nowFmt` stands for
`datetime.now().strftime('%Y-%m-%d %H:%M')`). -/
def assembleFinalScript (cfg : ShowConfig) (nowFmt : String)
    (sections : ScriptSections) : String :=
  let banner := String.mk (List.replicate 60 '=')
  let shw := (cfg.show_name.getD (.str "PODCAST")).render
  let parts :=
    [banner,
     "PODCAST SCRIPT: " ++ shw,
     "Generated on: " ++ nowFmt,
     banner,
     "",
     "### INTRO ###",
     sections.intro.script,
     "",
     "### MAIN CONTENT ###"]
    ++ assembleMain sections.main_content sections.transitions
    ++ ["### OUTRO ###",
        sections.outro.script,
        "",
        "### SHOW NOTES ###",
        "**Episode Summary:**",
        sections.show_notes.episode_summary,
        ""]
    ++ ["**Key Points:**"]
    ++ sections.show_notes.key_points.map (fun p => "- " ++ p)
    ++ [""]
    ++ ["**Timestamps:**"]
    ++ sections.show_notes.timestamps.map (fun t => t.time ++ " - " ++ t.topic)
    ++ [""]
  String.intercalate "\n" parts

/-- The result of `generate_complete_script`. -/
structure GenResult where
  script : String
  sections : ScriptSections
  generated_at : String
  status : String
  estimated_duration : ℚ
  format : PyStr
  deriving DecidableEq, Repr

/-- `PodcastScriptGenerator.generate_complete_script`.  The Python body is
wrapped in `try/except` that converts an escaping exception into a record
with `status='error'` and a message; every operation of the body is total
(all dictionary reads use `.get`), which the embedding witnesses by being
a total function always returning the `status='success'` shape. -/
def generateCompleteScript (nowIso nowFmt : String) (cfg : ShowConfig)
    (pt : PTranscript) : GenResult :=
  let speakerConfig := determineSpeakerFormat cfg pt
  let sections : ScriptSections :=
    { intro := generateIntro cfg pt speakerConfig
      main_content := generateMainContent pt speakerConfig
      transitions := generateTransitions pt
      outro := generateOutro cfg pt speakerConfig
      show_notes := generateShowNotes cfg pt
      metadata := generateMetadata nowIso pt
      speaker_config := speakerConfig }
  { script := assembleFinalScript cfg nowFmt sections
    sections := sections
    generated_at := nowIso
    status := "success"
    estimated_duration := calculateTotalDuration sections
    format := speakerConfig.format }

/-!
### Interface values and specification-side predicates
-/

/-- A processed segment as handed to the generator by the surrounding
harness (all keys present, as `process_from_file` produces them). -/
def segToPSeg (s : Segment) : PSeg :=
  { id := some (s.id : Int)
    text := some ⟨s.text⟩
    word_count := some (s.word_count : Int)
    estimated_duration := some s.estimated_duration
    topic_keywords := some (s.topic_keywords.map String.mk)
    segment_type := some s.segment_type }

/-- Wrap processed segments as a transcript dictionary. -/
def ptOfSegments (l : List Segment) : PTranscript := ⟨some (l.map segToPSeg)⟩

/-- The configured base format
`show_config.get('speakers', {}).get('format', 'single_host')`. -/
def configuredFormat (cfg : ShowConfig) : PyStr :=
  (cfg.speakers.getD emptySpeakers).format.getD (.str "single_host")

/-- The number of segments whose `segment_type` is `qa`. -/
def qaCount (pt : PTranscript) : Nat :=
  ((pt.segments.getD []).filter (fun s => s.segment_type == some "qa")).length

/-- The bracketed-timestamp pattern of the specification: an opening
bracket, one or more digit/colon characters, a closing bracket, occurring
as a substring. -/
def hasTimestampPat (s : List Char) : Prop :=
  ∃ pre mid post, s = pre ++ "[".data ++ mid ++ "]".data ++ post ∧ mid ≠ [] ∧
    ∀ c ∈ mid, (isDigitC c || c = ':') = true

/-- A whole-word, case-insensitive occurrence of `w`: a substring whose
lowering is `w` and whose two flanking characters (when they exist) are
not word characters. -/
def wholeWordOccurs (w s : List Char) : Prop :=
  ∃ pre mid post, s = pre ++ mid ++ post ∧ lowStr mid = w ∧
    (∀ c ∈ pre.getLast?, isWordC c = false) ∧
    (∀ c ∈ post.head?, isWordC c = false)

/-- The scenario input of the specification (three blank-line separated
paragraphs). -/
def c1Input : String :=
  "Welcome to our show about AI.\n\nRecent studies show 300% improvement.\n\nLet me share a story about implementation."

/-- A minimal `qa`-classified segment dictionary. -/
def qaPseg : PSeg :=
  { id := some 1, text := some "Q and A", word_count := Option.none
    estimated_duration := Option.none, topic_keywords := some []
    segment_type := some "qa" }

/-- Three `qa` segments (the override scenario). -/
def threeQaTranscript : PTranscript := ⟨some [qaPseg, qaPseg, qaPseg]⟩

/-- A data segment for exercising the polish templates. -/
def dataPseg : PSeg :=
  { id := some 1, text := some "We use data daily.", word_count := Option.none
    estimated_duration := Option.none, topic_keywords := some []
    segment_type := some "data" }

/-- A resolved single-host speaker configuration with an all-caps host
label (so that polished lines are speaker-label lines). -/
def capsHostSpeakerCfg : SpeakerConfig :=
  { format := .str "single_host", host_name := .str "HOST"
    guest_name := .str "GUEST", co_host_name := .str "CO-HOST"
    participants := [] }

/-- A content segment with the single topic keyword `ai`. -/
def aiPseg : PSeg :=
  { id := some 1, text := some "t", word_count := Option.none
    estimated_duration := Option.none, topic_keywords := some ["ai"]
    segment_type := some "content" }

/-- A content segment with the single topic keyword `web`. -/
def webPseg : PSeg :=
  { id := some 2, text := some "t2", word_count := Option.none
    estimated_duration := Option.none, topic_keywords := some ["web"]
    segment_type := some "content" }

/-- Token kind. -/
def Tok.isRun : Tok → Bool
  | .run _ => true
  | .gap _ => false

/-- Wellformedness of a token: runs are nonempty word-character strings,
gaps are nonempty non-word-character strings. -/
def wfTok : Tok → Prop
  | .run r => r ≠ [] ∧ ∀ c ∈ r, isWordC c = true
  | .gap g => g ≠ [] ∧ ∀ c ∈ g, isWordC c = false

/-- Canonical token lists: wellformed tokens of alternating kinds (the
shape `tokenize` produces and every pass preserves). -/
def Canon (ts : List Tok) : Prop :=
  (∀ t ∈ ts, wfTok t) ∧ ts.Chain' (fun a b => a.isRun ≠ b.isRun)

/-- The word runs of a token list. -/
def runsOf (ts : List Tok) : List (List Char) :=
  ts.filterMap fun t =>
    match t with
    | .run r => some r
    | .gap _ => none

/-- No run of the token list is a single-word filler. -/
def noSingleFillerRuns (ts : List Tok) : Prop :=
  ∀ r ∈ runsOf ts, lowStr r ∉ singleFillers

/-!
## Theorems
-/

theorem canon_tail {t : Tok} {ts : List Tok} (h : Canon (t :: ts)) : Canon ts :=
  ⟨fun u hu => h.1 u (List.mem_cons_of_mem _ hu), h.2.tail⟩

theorem canon_head_wf {t : Tok} {ts : List Tok} (h : Canon (t :: ts)) : wfTok t :=
  h.1 t (List.mem_cons_self _ _)

theorem head_dropWhile_not (p : Char → Bool) :
    ∀ (l : List Char), ∀ x ∈ (l.dropWhile p).head?, p x = false := by
  intro l
  induction l with
  | nil => intro x hx; simp at hx
  | cons c cs ih =>
    intro x hx
    by_cases hc : p c
    · rw [List.dropWhile_cons_of_pos hc] at hx
      exact ih x hx
    · rw [List.dropWhile_cons_of_neg hc] at hx
      simp only [List.head?_cons, Option.mem_def, Option.some.injEq] at hx
      subst hx
      exact Bool.eq_false_iff.mpr hc

theorem mem_dropWhile_sub (p : Char → Bool) (l : List Char) :
    l.dropWhile p ⊆ l :=
  (List.dropWhile_suffix p).sublist.subset

theorem runsOf_cons_gap (g : List Char) (ts : List Tok) :
    runsOf (.gap g :: ts) = runsOf ts := rfl

theorem runsOf_cons_run (r : List Char) (ts : List Tok) :
    runsOf (.run r :: ts) = r :: runsOf ts := rfl

theorem consGap_nil (g : List Char) :
    consGap g [] = if g.isEmpty then [] else [.gap g] := rfl

theorem consGap_gapCons (g g2 : List Char) (ts : List Tok) :
    consGap g (.gap g2 :: ts) = .gap (g ++ g2) :: ts := rfl

theorem consGap_runCons (g r : List Char) (ts : List Tok) :
    consGap g (.run r :: ts)
      = if g.isEmpty then .run r :: ts else .gap g :: .run r :: ts := rfl

theorem runsOf_consGap (g : List Char) (ts : List Tok) :
    runsOf (consGap g ts) = runsOf ts := by
  cases ts with
  | nil =>
    rw [consGap_nil]
    split <;> rfl
  | cons t ts' =>
    cases t with
    | run r =>
      rw [consGap_runCons]
      split <;> rfl
    | gap g2 => rw [consGap_gapCons]; rfl

theorem consGap_head_not_run (g : List Char) (hg : g ≠ []) (ts : List Tok) :
    ∀ t ∈ (consGap g ts).head?, t.isRun = false := by
  have hge : g.isEmpty = false := by simpa using hg
  cases ts with
  | nil => rw [consGap_nil, hge]; simp [Tok.isRun]
  | cons t ts' =>
    cases t with
    | run r => rw [consGap_runCons, hge]; simp [Tok.isRun]
    | gap g2 => rw [consGap_gapCons]; simp [Tok.isRun]

theorem canon_consGap {g : List Char} (hg : ∀ c ∈ g, isWordC c = false)
    {ts : List Tok} (h : Canon ts) : Canon (consGap g ts) := by
  by_cases hge : g.isEmpty
  · cases ts with
    | nil => rw [consGap_nil, if_pos hge]; exact h
    | cons t ts' =>
      cases t with
      | run r => rw [consGap_runCons, if_pos hge]; exact h
      | gap g2 =>
        rw [consGap_gapCons]
        have hgnil : g = [] := by simpa using hge
        subst hgnil
        simpa using h
  · have hgne : g ≠ [] := by simpa using hge
    cases ts with
    | nil =>
      rw [consGap_nil, if_neg hge]
      exact ⟨by
        intro u hu
        simp only [List.mem_singleton] at hu
        subst hu
        exact ⟨hgne, hg⟩, List.chain'_singleton _⟩
    | cons t ts' =>
      cases t with
      | run r =>
        rw [consGap_runCons, if_neg hge]
        refine ⟨?_, List.chain'_cons'.mpr ⟨?_, h.2⟩⟩
        · intro u hu
          rcases List.mem_cons.mp hu with rfl | hu'
          · exact ⟨hgne, hg⟩
          · exact h.1 u hu'
        · intro b hb
          simp only [List.head?_cons, Option.mem_def, Option.some.injEq] at hb
          subst hb
          simp [Tok.isRun]
      | gap g2 =>
        rw [consGap_gapCons]
        have hwf := canon_head_wf h
        refine ⟨?_, ?_⟩
        · intro u hu
          rcases List.mem_cons.mp hu with rfl | hu'
          · refine ⟨by simp [hwf.1], ?_⟩
            intro c hc
            rcases List.mem_append.mp hc with h1 | h2
            · exact hg c h1
            · exact hwf.2 c h2
          · exact h.1 u (List.mem_cons_of_mem _ hu')
        · exact List.chain'_cons'.mpr
            ⟨(List.chain'_cons'.mp h.2).1, h.2.tail⟩

theorem dropWhile_len_le (p : Char → Bool) (l : List Char) :
    (l.dropWhile p).length ≤ l.length :=
  (List.dropWhile_suffix p).sublist.length_le

theorem tokenizeF_cons_head (f : Nat) (c : Char) (cs : List Char)
    (hf : (c :: cs).length ≤ f) :
    ∃ t ts', tokenizeF f (c :: cs) = t :: ts' ∧ t.isRun = isWordC c := by
  cases f with
  | zero => simp at hf
  | succ f' =>
    by_cases hw : isWordC c
    · exact ⟨.run (c :: cs.takeWhile isWordC),
        tokenizeF f' (cs.dropWhile isWordC),
        by simp [tokenizeF, hw], by simp [Tok.isRun, hw]⟩
    · exact ⟨.gap (c :: cs.takeWhile (fun d => !isWordC d)),
        tokenizeF f' (cs.dropWhile (fun d => !isWordC d)),
        by simp [tokenizeF, hw], by simp [Tok.isRun, hw]⟩

theorem canon_nil : Canon [] :=
  ⟨fun t ht => absurd ht (List.not_mem_nil t), List.chain'_nil⟩

theorem tokenizeF_canon : ∀ (f : Nat) (s : List Char), s.length ≤ f →
    Canon (tokenizeF f s) := by
  intro f
  induction f with
  | zero =>
    intro s hs
    have : s = [] := List.length_eq_zero.mp (Nat.le_zero.mp hs)
    subst this
    exact canon_nil
  | succ f' ih =>
    intro s hs
    cases s with
    | nil => exact canon_nil
    | cons c cs =>
      have hcs : cs.length ≤ f' := by
        simpa using hs
      by_cases hw : isWordC c
      · rw [show tokenizeF (f' + 1) (c :: cs)
            = .run (c :: cs.takeWhile isWordC) :: tokenizeF f' (cs.dropWhile isWordC)
            from by simp [tokenizeF, hw]]
        have hrest : (cs.dropWhile isWordC).length ≤ f' :=
          le_trans (dropWhile_len_le _ _) hcs
        have hcanon := ih _ hrest
        refine ⟨?_, List.chain'_cons'.mpr ⟨?_, hcanon.2⟩⟩
        · intro t ht
          rcases List.mem_cons.mp ht with rfl | ht'
          · refine ⟨by simp, ?_⟩
            intro x hx
            rcases List.mem_cons.mp hx with rfl | h2
            · exact hw
            · exact List.mem_takeWhile_imp h2
          · exact hcanon.1 t ht'
        · intro b hb
          cases hrest2 : cs.dropWhile isWordC with
          | nil =>
            rw [hrest2] at hb
            cases f' <;> simp [tokenizeF] at hb
          | cons x xs =>
            have hx : isWordC x = false := by
              have hh := head_dropWhile_not isWordC cs x
              rw [hrest2] at hh
              exact hh rfl
            obtain ⟨t0, ts0, heq, hkind⟩ :=
              tokenizeF_cons_head f' x xs (by rw [← hrest2]; exact hrest)
            rw [hrest2, heq] at hb
            simp only [List.head?_cons, Option.mem_def, Option.some.injEq] at hb
            subst hb
            rw [Tok.isRun, hkind, hx]
            simp
      · rw [show tokenizeF (f' + 1) (c :: cs)
            = .gap (c :: cs.takeWhile (fun d => !isWordC d))
                :: tokenizeF f' (cs.dropWhile (fun d => !isWordC d))
            from by simp [tokenizeF, hw]]
        have hrest : (cs.dropWhile (fun d => !isWordC d)).length ≤ f' :=
          le_trans (dropWhile_len_le _ _) hcs
        have hcanon := ih _ hrest
        refine ⟨?_, List.chain'_cons'.mpr ⟨?_, hcanon.2⟩⟩
        · intro t ht
          rcases List.mem_cons.mp ht with rfl | ht'
          · refine ⟨by simp, ?_⟩
            intro x hx
            rcases List.mem_cons.mp hx with rfl | h2
            · exact Bool.eq_false_iff.mpr hw
            · simpa using List.mem_takeWhile_imp h2
          · exact hcanon.1 t ht'
        · intro b hb
          cases hrest2 : cs.dropWhile (fun d => !isWordC d) with
          | nil =>
            rw [hrest2] at hb
            cases f' <;> simp [tokenizeF] at hb
          | cons x xs =>
            have hx : isWordC x = true := by
              have hh := head_dropWhile_not (fun d => !isWordC d) cs x
              rw [hrest2] at hh
              simpa using hh rfl
            obtain ⟨t0, ts0, heq, hkind⟩ :=
              tokenizeF_cons_head f' x xs (by rw [← hrest2]; exact hrest)
            rw [hrest2, heq] at hb
            simp only [List.head?_cons, Option.mem_def, Option.some.injEq] at hb
            subst hb
            rw [Tok.isRun, hkind, hx]
            simp

theorem tokenize_canon (s : List Char) : Canon (tokenize s) :=
  tokenizeF_canon s.length s le_rfl

/-- Every run surviving the filler pass was an input run and is not a
single-word filler (the pass removes every single-filler run it meets,
and `you`/`know` runs it removes only as a pair). -/
theorem procFillersF_runs : ∀ (f : Nat) (ts : List Tok), ∀ r ∈ runsOf (procFillersF f ts), r ∈ runsOf ts ∧ lowStr r ∉ singleFillers := by
  intro f ts
  induction f, ts using procFillersF.induct with
  | case1 ts => intro r hr; simp [procFillersF, runsOf] at hr
  | case2 f => intro r hr; simp [procFillersF, runsOf] at hr
  | case3 f g rest ih =>
    intro r hr
    rw [show procFillersF (f + 1) (.gap g :: rest) = consGap g (procFillersF f rest)
        from rfl, runsOf_consGap] at hr
    obtain ⟨h1, h2⟩ := ih r hr
    exact ⟨by rw [runsOf_cons_gap]; exact h1, h2⟩
  | case4 f r0 g r2 rest2 hmem ih =>
    intro r hr
    rw [show procFillersF (f + 1) (.run r0 :: .gap g :: .run r2 :: rest2)
        = procFillersF f (.gap g :: .run r2 :: rest2) from by
      simp [procFillersF, hmem]] at hr
    obtain ⟨h1, h2⟩ := ih r hr
    exact ⟨by rw [runsOf_cons_run]; exact List.mem_cons_of_mem _ h1, h2⟩
  | case5 f r0 g r2 rest2 hmem hyk ih =>
    intro r hr
    rw [show procFillersF (f + 1) (.run r0 :: .gap g :: .run r2 :: rest2)
        = procFillersF f rest2 from by simp [procFillersF, hmem, hyk]] at hr
    obtain ⟨h1, h2⟩ := ih r hr
    refine ⟨?_, h2⟩
    rw [runsOf_cons_run, runsOf_cons_gap, runsOf_cons_run]
    exact List.mem_cons_of_mem _ (List.mem_cons_of_mem _ h1)
  | case6 f r0 g r2 rest2 hmem hyk ih =>
    intro r hr
    rw [show procFillersF (f + 1) (.run r0 :: .gap g :: .run r2 :: rest2)
        = .run r0 :: procFillersF f (.gap g :: .run r2 :: rest2) from by
      simp [procFillersF, hmem, hyk]] at hr
    rw [runsOf_cons_run] at hr
    rcases List.mem_cons.mp hr with rfl | hr'
    · exact ⟨by rw [runsOf_cons_run]; exact List.mem_cons_self _ _, hmem⟩
    · obtain ⟨h1, h2⟩ := ih r hr'
      exact ⟨by rw [runsOf_cons_run]; exact List.mem_cons_of_mem _ h1, h2⟩
  | case7 f r0 rest hshape hmem ih =>
    intro r hr
    rw [show procFillersF (f + 1) (.run r0 :: rest) = procFillersF f rest from by
      simp [procFillersF, hmem, hshape]] at hr
    obtain ⟨h1, h2⟩ := ih r hr
    exact ⟨by rw [runsOf_cons_run]; exact List.mem_cons_of_mem _ h1, h2⟩
  | case8 f r0 rest hshape hmem ih =>
    intro r hr
    rw [show procFillersF (f + 1) (.run r0 :: rest) = .run r0 :: procFillersF f rest
        from by simp [procFillersF, hmem, hshape]] at hr
    rw [runsOf_cons_run] at hr
    rcases List.mem_cons.mp hr with rfl | hr'
    · exact ⟨by rw [runsOf_cons_run]; exact List.mem_cons_self _ _, hmem⟩
    · obtain ⟨h1, h2⟩ := ih r hr'
      exact ⟨by rw [runsOf_cons_run]; exact List.mem_cons_of_mem _ h1, h2⟩

theorem procFillersF_canon : ∀ (f : Nat) (ts : List Tok), Canon ts → Canon (procFillersF f ts) := by
  intro f ts
  induction f, ts using procFillersF.induct with
  | case1 ts => intro _; exact canon_nil
  | case2 f => intro _; exact canon_nil
  | case3 f g rest ih =>
    intro h
    exact canon_consGap (canon_head_wf h).2 (ih (canon_tail h))
  | case4 f r0 g r2 rest2 hmem ih =>
    intro h
    rw [show procFillersF (f + 1) (.run r0 :: .gap g :: .run r2 :: rest2)
        = procFillersF f (.gap g :: .run r2 :: rest2) from by
      simp [procFillersF, hmem]]
    exact ih (canon_tail h)
  | case5 f r0 g r2 rest2 hmem hyk ih =>
    intro h
    rw [show procFillersF (f + 1) (.run r0 :: .gap g :: .run r2 :: rest2)
        = procFillersF f rest2 from by simp [procFillersF, hmem, hyk]]
    exact ih (canon_tail (canon_tail (canon_tail h)))
  | case6 f r0 g r2 rest2 hmem hyk ih =>
    intro h
    rw [show procFillersF (f + 1) (.run r0 :: .gap g :: .run r2 :: rest2)
        = .run r0 :: procFillersF f (.gap g :: .run r2 :: rest2) from by
      simp [procFillersF, hmem, hyk]]
    have hc := ih (canon_tail h)
    refine ⟨?_, List.chain'_cons'.mpr ⟨?_, hc.2⟩⟩
    · intro t ht
      rcases List.mem_cons.mp ht with rfl | ht'
      · exact canon_head_wf h
      · exact hc.1 t ht'
    · intro b hb
      cases f with
      | zero => simp [procFillersF] at hb
      | succ f' =>
        rw [show procFillersF (f' + 1) (.gap g :: .run r2 :: rest2)
            = consGap g (procFillersF f' (.run r2 :: rest2)) from rfl] at hb
        have hgne : g ≠ [] := (canon_head_wf (canon_tail h)).1
        have hb2 := consGap_head_not_run g hgne _ b hb
        intro hcontra
        rw [hb2] at hcontra
        simp [Tok.isRun] at hcontra
  | case7 f r0 rest hshape hmem ih =>
    intro h
    rw [show procFillersF (f + 1) (.run r0 :: rest) = procFillersF f rest from by
      simp [procFillersF, hmem, hshape]]
    exact ih (canon_tail h)
  | case8 f r0 rest hshape hmem ih =>
    intro h
    rw [show procFillersF (f + 1) (.run r0 :: rest) = .run r0 :: procFillersF f rest
        from by simp [procFillersF, hmem, hshape]]
    have hc := ih (canon_tail h)
    refine ⟨?_, List.chain'_cons'.mpr ⟨?_, hc.2⟩⟩
    · intro t ht
      rcases List.mem_cons.mp ht with rfl | ht'
      · exact canon_head_wf h
      · exact hc.1 t ht'
    · intro b hb
      cases rest with
      | nil => cases f <;> simp [procFillersF] at hb
      | cons t rest' =>
        cases t with
        | run r1 =>
          have := (List.chain'_cons'.mp h.2).1 (Tok.run r1) rfl
          simp [Tok.isRun] at this
        | gap g1 =>
          cases f with
          | zero => simp [procFillersF] at hb
          | succ f' =>
            rw [show procFillersF (f' + 1) (.gap g1 :: rest')
                = consGap g1 (procFillersF f' rest') from rfl] at hb
            have hgne : g1 ≠ [] := (canon_head_wf (canon_tail h)).1
            have hb2 := consGap_head_not_run g1 hgne _ b hb
            intro hcontra
            rw [hb2] at hcontra
            simp [Tok.isRun] at hcontra

/-- C1 (counterexample): on the scenario input, the combined
`clean_transcript` + `extract_key_segments` entry point does not produce
3 segments — `clean_transcript` collapses all whitespace (including the
blank-line paragraph separators) to single spaces, so the segmenter sees
one paragraph. -/
theorem c1_counterexample :
    (extractKeySegments (cleanChars c1Input.data)).length ≠ 3 := by decide

/-- C1 (amended): on the scenario input the pipeline yields exactly one
segment, classified `introduction` (the collapsed paragraph contains
`welcome`), and the assembler produces 0 transitions for it. -/
theorem c1_single_segment :
    ((extractKeySegments (cleanChars c1Input.data)).map (fun s => s.segment_type))
      = ["introduction"] ∧
    (generateTransitions (ptOfSegments (extractKeySegments (cleanChars c1Input.data)))).length
      = 0 := by
  constructor
  · decide
  · decide

/-- C3 (counterexample): the emphasis rewrite of
`_add_natural_speech_patterns` runs on the whole text before the per-line
guard, so a speaker-label line inside a polished data block is modified
(`really` becomes `[EMPHASIS] really`); speaker-label lines do not pass
through unmodified by both rewrites. -/
theorem c3_counterexample :
    isSpeakerLabelLine
      "HOST: Now, here's something that really caught my attention. We use data daily.".data
      = true ∧
    (splitNl (polishSegmentContent dataPseg capsHostSpeakerCfg).data).head?
      = some "HOST: Now, here's something that [EMPHASIS] really caught my attention. We use data daily.".data ∧
    "HOST: Now, here's something that [EMPHASIS] really caught my attention. We use data daily."
      ≠ "HOST: Now, here's something that really caught my attention. We use data daily." := by
  refine ⟨by decide, by decide, by decide⟩

/-- C3 (amended): `_add_natural_speech_patterns` applies the emphasis
rewrite to the whole text first and only then splits into lines; the
pause-insertion rewrite skips every speaker-label line and every
bracketed production-cue line, which pass through that second rewrite
unchanged. -/
theorem c3_pause_guard :
    (∀ t : List Char, addNaturalSpeechPatterns t
        = (((splitNl (emphasize t)).map processLine).intersperse ['\n']).flatten) ∧
    (∀ ln : List Char, isSpeakerLabelLine ln = true → processLine ln = ln) ∧
    (∀ ln : List Char, isCueLine ln = true → processLine ln = ln) := by
  refine ⟨fun _ => rfl, fun ln h => by simp [processLine, h], fun ln h => ?_⟩
  unfold processLine
  split
  · rfl
  · simp [h]

/-- Witness for `c3_pause_guard` at a concrete speaker-label line. -/
theorem c3_pause_guard_witness :
    isSpeakerLabelLine "HOST: hi".data = true ∧
    processLine "HOST: hi".data = "HOST: hi".data :=
  ⟨by decide, c3_pause_guard.2.1 "HOST: hi".data (by decide)⟩

/-- C4 (code bug): under the default show configuration the `speakers`
keys are present with value `None`, so `dict.get(key, 'GUEST')` returns
`None` rather than the placeholder; the resolver hands `None` through and
an interview-format intro (forced here by three `qa` segments) addresses
the guest as `None`, not `GUEST`. -/
theorem c4_guest_is_none :
    (determineSpeakerFormat defaultShowConfig threeQaTranscript).format
      = PyStr.str "interview" ∧
    (determineSpeakerFormat defaultShowConfig threeQaTranscript).guest_name
      = PyStr.none ∧
    (determineSpeakerFormat defaultShowConfig threeQaTranscript).guest_name
      ≠ PyStr.str "GUEST" ∧
    containsSub
      (generateIntro defaultShowConfig threeQaTranscript
        (determineSpeakerFormat defaultShowConfig threeQaTranscript)).script.data
      "None: Thanks for having me on the show.".data = true := by
  refine ⟨by decide, by decide, by decide, by decide⟩

/-- C7: classification tests the phrase groups in the fixed priority
order (introduction, conclusion, qa, data, narrative) with the first
matching group winning and `content` as the fallback; in particular a
paragraph containing both an introduction phrase and a data phrase is
classified `introduction`. -/
theorem c7_classify_priority : ∀ t : List Char,
    (hasPhraseIn introPhrases t = true → classifySegment t = "introduction")
  ∧ (hasPhraseIn introPhrases t = false → hasPhraseIn conclusionPhrases t = true →
      classifySegment t = "conclusion")
  ∧ (hasPhraseIn introPhrases t = false → hasPhraseIn conclusionPhrases t = false →
      hasPhraseIn qaPhrases t = true → classifySegment t = "qa")
  ∧ (hasPhraseIn introPhrases t = false → hasPhraseIn conclusionPhrases t = false →
      hasPhraseIn qaPhrases t = false → hasPhraseIn dataPhrases t = true →
      classifySegment t = "data")
  ∧ (hasPhraseIn introPhrases t = false → hasPhraseIn conclusionPhrases t = false →
      hasPhraseIn qaPhrases t = false → hasPhraseIn dataPhrases t = false →
      hasPhraseIn narrativePhrases t = true → classifySegment t = "narrative")
  ∧ (hasPhraseIn introPhrases t = false → hasPhraseIn conclusionPhrases t = false →
      hasPhraseIn qaPhrases t = false → hasPhraseIn dataPhrases t = false →
      hasPhraseIn narrativePhrases t = false → classifySegment t = "content")
  ∧ (hasPhraseIn introPhrases t = true → hasPhraseIn dataPhrases t = true →
      classifySegment t = "introduction") := by
  intro t
  refine ⟨fun h1 => ?_, fun h1 h2 => ?_, fun h1 h2 h3 => ?_, fun h1 h2 h3 h4 => ?_,
    fun h1 h2 h3 h4 h5 => ?_, fun h1 h2 h3 h4 h5 => ?_, fun h1 _ => ?_⟩ <;>
    simp_all [classifySegment]

/-- Witness for `c7_classify_priority`: a paragraph with both an
introduction phrase and a data phrase is classified `introduction`. -/
theorem c7_classify_priority_witness :
    hasPhraseIn introPhrases "Welcome to this look at the data".data = true ∧
    hasPhraseIn dataPhrases "Welcome to this look at the data".data = true ∧
    classifySegment "Welcome to this look at the data".data = "introduction" :=
  ⟨by decide, by decide,
    (c7_classify_priority "Welcome to this look at the data".data).2.2.2.2.2.2
      (by decide) (by decide)⟩

/-- C8 (counterexample): with a single topic the episode summary reads
`…explore  and ai…` (empty join, stray ` and `), while the intro
preview's joining rule would give the bare item `ai` — the two rules
differ. -/
theorem c8_counterexample :
    generateEpisodeSummary [aiPseg]
      = "In this episode, we explore  and ai, examining their impact and implications for the future." ∧
    previewJoin (summaryTopics [aiPseg]) = "ai" ∧
    generateEpisodeSummary [aiPseg]
      ≠ "In this episode, we explore " ++ previewJoin (summaryTopics [aiPseg])
          ++ ", examining their impact and implications for the future." := by
  refine ⟨by decide, by decide, by decide⟩

/-- C8 (amended): for a nonempty segment list the summary joins its
unique topics with `', '` between all but the last and `' and '` before
the last — agreeing with the intro preview rule only for exactly two
topics (one topic yields a stray leading `and`, three or more lack the
Oxford comma) — and falls back to a fixed sentence when no topics
exist. -/
theorem c8_summary_join : ∀ segs : List PSeg, segs ≠ [] →
    (summaryTopics segs ≠ [] →
      generateEpisodeSummary segs
        = "In this episode, we explore "
            ++ String.intercalate ", " (summaryTopics segs).dropLast
            ++ " and " ++ ((summaryTopics segs).getLast?.getD "")
            ++ ", examining their impact and implications for the future.")
  ∧ (summaryTopics segs = [] →
      generateEpisodeSummary segs
        = "A comprehensive discussion covering important developments and insights.")
  ∧ ((summaryTopics segs).length = 2 →
      "In this episode, we explore "
          ++ String.intercalate ", " (summaryTopics segs).dropLast
          ++ " and " ++ ((summaryTopics segs).getLast?.getD "")
          ++ ", examining their impact and implications for the future."
        = "In this episode, we explore " ++ previewJoin (summaryTopics segs)
            ++ ", examining their impact and implications for the future.") := by
  intro segs hne
  have hempty : segs.isEmpty = false := by
    cases segs with
    | nil => exact absurd rfl hne
    | cons a l => rfl
  refine ⟨fun ht => ?_, fun ht => ?_, fun hlen => ?_⟩
  · unfold generateEpisodeSummary
    rw [hempty]
    cases h : summaryTopics segs with
    | nil => exact absurd h ht
    | cons a l => simp [h]
  · unfold generateEpisodeSummary
    rw [hempty]
    simp [ht]
  · cases h : summaryTopics segs with
    | nil => simp [h] at hlen
    | cons a l =>
      cases l with
      | nil => simp [h] at hlen
      | cons b l2 =>
        cases l2 with
        | nil =>
          have hpj : previewJoin [a, b] = a ++ " and " ++ b := by
            simp [previewJoin]
          have hint : String.intercalate ", " [a, b].dropLast = a := rfl
          have hgl : [a, b].getLast?.getD "" = b := rfl
          rw [hpj, hint, hgl]
          simp only [String.append_assoc]
        | cons c l3 => simp [h] at hlen

/-- Witness for `c8_summary_join` at two concrete topics. -/
theorem c8_summary_join_witness :
    generateEpisodeSummary [aiPseg, webPseg]
      = "In this episode, we explore ai and web, examining their impact and implications for the future." :=
  ((c8_summary_join [aiPseg, webPseg] (by decide)).1 (by decide)).trans (by decide)

/-- C5: the resolved format equals the configured one except that
`single_host` with strictly more than two `qa` segments becomes
`interview`; the three-`qa` scenario resolves to `interview`. -/
theorem c5_format_override :
    (∀ (cfg : ShowConfig) (pt : PTranscript),
      (determineSpeakerFormat cfg pt).format
        = if configuredFormat cfg = PyStr.str "single_host" ∧ 2 < qaCount pt
          then PyStr.str "interview" else configuredFormat cfg) ∧
    (determineSpeakerFormat defaultShowConfig threeQaTranscript).format
      = PyStr.str "interview" := by
  constructor
  · intro cfg pt
    unfold determineSpeakerFormat configuredFormat qaCount
    by_cases h1 :
        (cfg.speakers.getD emptySpeakers).format.getD (.str "single_host")
          = PyStr.str "single_host" <;>
      by_cases h2 :
          2 < ((pt.segments.getD []).filter
            (fun s => s.segment_type == some "qa")).length <;>
        simp [h1, h2]
  · decide

/-- C2 (counterexample): `clean_transcript` can emit both a surviving
filler and a freshly spliced timestamp pattern.  Removing `um` from
`you um know` leaves a double space, so the filler pass does not see
`you know`, and the final whitespace collapse then produces it; removing
the inner `[2]` from `[1[2]3]` splices `[13]`, which the single
timestamp pass never rescans. -/
theorem c2_counterexample :
    cleanTranscript "you um know" = "you know" ∧
    wholeWordOccurs "you know".data (cleanChars "you um know".data) ∧
    cleanTranscript "[1[2]3]" = "[13]" ∧
    hasTimestampPat (cleanChars "[1[2]3]".data) := by
  refine ⟨by decide,
    ⟨[], "you know".data, [], by decide, by decide, by simp, by simp⟩,
    by decide,
    ⟨[], "13".data, [], by decide, by decide, by decide⟩⟩

/-- Rounding a value that is already an integer multiple of `1/100`. -/
theorem roundTo2_int_div (q : ℚ) (n : ℤ) (h : q * 100 = (n : ℚ)) :
    roundTo2 q = (n : ℚ) / 100 := by
  unfold roundTo2
  rw [h, round_intCast]

/-- Mapping a function of the element over an enumerated list. -/
theorem map_enum_snd_comp {α β : Type} (l : List α) (g : α → β) :
    l.enum.map (fun is => g is.2) = l.map g := by
  have : (fun is : ℕ × α => g is.2) = g ∘ Prod.snd := rfl
  rw [this, ← List.map_map, List.enum_map_snd]

/-- The per-block durations of the generated main content are the
segments' durations (defaulted to 2). -/
theorem map_duration_generateMainContent (pt : PTranscript) (sc : SpeakerConfig) :
    (generateMainContent pt sc).map (fun c => c.estimated_duration)
      = (pt.segments.getD []).map (fun s => s.estimated_duration.getD 2) := by
  unfold generateMainContent
  rw [List.map_map]
  show (pt.segments.getD []).enum.map (fun is => is.2.estimated_duration.getD 2) = _
  exact map_enum_snd_comp (pt.segments.getD [])
    (fun s => s.estimated_duration.getD 2)

/-- The number of generated transitions is one less than the number of
segments. -/
theorem length_generateTransitions (pt : PTranscript) :
    (generateTransitions pt).length = (pt.segments.getD []).length - 1 := by
  unfold generateTransitions
  simp only [List.length_map, List.length_zip, List.length_tail]
  omega

/-- C9: the top-level call always returns a result tagged `success` or
`error` (the embedding is total, witnessing that the `try/except` wrapper
never lets an exception escape), and with zero segments it returns
`success` with nonempty intro and outro scripts, empty main content,
empty transitions and total duration `3.5`. -/
theorem c9_zero_segments :
    (∀ (nowIso nowFmt : String) (cfg : ShowConfig) (pt : PTranscript),
      (generateCompleteScript nowIso nowFmt cfg pt).status = "success"
        ∨ (generateCompleteScript nowIso nowFmt cfg pt).status = "error") ∧
    (generateCompleteScript "2024-01-01T00:00:00" "2024-01-01 00:00"
        defaultShowConfig ⟨some []⟩).status = "success" ∧
    (generateCompleteScript "2024-01-01T00:00:00" "2024-01-01 00:00"
        defaultShowConfig ⟨some []⟩).sections.main_content = [] ∧
    (generateCompleteScript "2024-01-01T00:00:00" "2024-01-01 00:00"
        defaultShowConfig ⟨some []⟩).sections.transitions = [] ∧
    (generateCompleteScript "2024-01-01T00:00:00" "2024-01-01 00:00"
        defaultShowConfig ⟨some []⟩).sections.intro.script ≠ "" ∧
    (generateCompleteScript "2024-01-01T00:00:00" "2024-01-01 00:00"
        defaultShowConfig ⟨some []⟩).sections.outro.script ≠ "" ∧
    (generateCompleteScript "2024-01-01T00:00:00" "2024-01-01 00:00"
        defaultShowConfig ⟨some []⟩).estimated_duration = 7/2 := by
  refine ⟨fun _ _ _ _ => Or.inl rfl, rfl, rfl, rfl, by decide, by decide, ?_⟩
  have e1 : (generateCompleteScript "2024-01-01T00:00:00" "2024-01-01 00:00"
      defaultShowConfig ⟨some []⟩).estimated_duration
      = calculateTotalDuration (generateCompleteScript "2024-01-01T00:00:00"
          "2024-01-01 00:00" defaultShowConfig ⟨some []⟩).sections := rfl
  rw [e1]
  unfold calculateTotalDuration
  rw [show (generateCompleteScript "2024-01-01T00:00:00" "2024-01-01 00:00"
        defaultShowConfig ⟨some []⟩).sections.main_content = [] from rfl,
      show (generateCompleteScript "2024-01-01T00:00:00" "2024-01-01 00:00"
        defaultShowConfig ⟨some []⟩).sections.transitions = [] from rfl,
      show (generateCompleteScript "2024-01-01T00:00:00" "2024-01-01 00:00"
        defaultShowConfig ⟨some []⟩).sections.intro.estimated_duration = 3/2 from rfl,
      show (generateCompleteScript "2024-01-01T00:00:00" "2024-01-01 00:00"
        defaultShowConfig ⟨some []⟩).sections.outro.estimated_duration = 2 from rfl]
  rw [roundTo2_int_div _ 350 (by norm_num)]
  norm_num

/-- C6: a segment's estimated duration is `round(word_count/150, 2)`
with `word_count` the whitespace word count of its paragraph, and a
generated script's total duration is `round(1.5 + Σ durations + 2.0 +
0.1·(N−1), 2)` for `N ≥ 1` segments and `3.5` for `N = 0`. -/
theorem c6_duration_formula :
    (∀ (i : Nat) (p : List Char),
      (mkSegment i p).estimated_duration
        = roundTo2 (((mkSegment i p).word_count : ℚ) / 150) ∧
      (mkSegment i p).word_count = (wsWords p).length) ∧
    (∀ (nowIso nowFmt : String) (cfg : ShowConfig) (segs : List PSeg),
      (segs = [] →
        (generateCompleteScript nowIso nowFmt cfg ⟨some segs⟩).estimated_duration
          = 7/2) ∧
      (segs ≠ [] →
        (generateCompleteScript nowIso nowFmt cfg ⟨some segs⟩).estimated_duration
          = roundTo2 (3/2 + (segs.map (fun s => s.estimated_duration.getD 2)).sum
              + 2 + (1/10) * ((segs.length : ℚ) - 1)))) := by
  constructor
  · intro i p
    exact ⟨rfl, rfl⟩
  · intro nowIso nowFmt cfg segs
    have e1 : (generateCompleteScript nowIso nowFmt cfg ⟨some segs⟩).estimated_duration
        = calculateTotalDuration
            (generateCompleteScript nowIso nowFmt cfg ⟨some segs⟩).sections := rfl
    have hmc : (generateCompleteScript nowIso nowFmt cfg
          ⟨some segs⟩).sections.main_content.map (fun c => c.estimated_duration)
        = segs.map (fun s => s.estimated_duration.getD 2) := by
      rw [show (generateCompleteScript nowIso nowFmt cfg
          ⟨some segs⟩).sections.main_content
          = generateMainContent ⟨some segs⟩
              (determineSpeakerFormat cfg ⟨some segs⟩) from rfl]
      exact map_duration_generateMainContent _ _
    have htr : (generateCompleteScript nowIso nowFmt cfg
          ⟨some segs⟩).sections.transitions.length = segs.length - 1 := by
      rw [show (generateCompleteScript nowIso nowFmt cfg
          ⟨some segs⟩).sections.transitions
          = generateTransitions ⟨some segs⟩ from rfl]
      exact length_generateTransitions _
    have hintro : (generateCompleteScript nowIso nowFmt cfg
        ⟨some segs⟩).sections.intro.estimated_duration = 3/2 := rfl
    have houtro : (generateCompleteScript nowIso nowFmt cfg
        ⟨some segs⟩).sections.outro.estimated_duration = 2 := rfl
    constructor
    · intro hnil
      subst hnil
      rw [e1]
      unfold calculateTotalDuration
      rw [hintro, houtro, hmc, htr]
      rw [roundTo2_int_div _ 350 (by norm_num)]
      norm_num
    · intro hne
      have hlen : 1 ≤ segs.length := by
        cases segs with
        | nil => exact absurd rfl hne
        | cons a l => exact Nat.succ_le_succ (Nat.zero_le _)
      rw [e1]
      unfold calculateTotalDuration
      rw [hintro, houtro, hmc, htr]
      congr 1
      rw [Nat.cast_sub hlen]
      push_cast
      ring

/-- Witness for `c6_duration_formula` with one segment of defaulted
duration 2: the total is `round(1.5 + 2 + 2 + 0, 2) = 5.5`. -/
theorem c6_duration_formula_witness :
    ([aiPseg] ≠ ([] : List PSeg)) ∧
    (generateCompleteScript "i" "f" defaultShowConfig ⟨some [aiPseg]⟩).estimated_duration
      = 11/2 := by
  refine ⟨by decide, ?_⟩
  rw [(c6_duration_formula.2 "i" "f" defaultShowConfig [aiPseg]).2 (by decide)]
  rw [show ((3:ℚ)/2 + ([aiPseg].map (fun s => s.estimated_duration.getD 2)).sum
      + 2 + (1/10) * (([aiPseg].length : ℚ) - 1)) = 11/2 by
    simp [aiPseg]; norm_num]
  rw [roundTo2_int_div _ 550 (by norm_num)]
  norm_num

theorem runsOf_append (a b : List Tok) : runsOf (a ++ b) = runsOf a ++ runsOf b := by
  unfold runsOf
  rw [List.filterMap_append]

theorem procCorrection_runs (target : List Char) (repl : List Tok)
    (la : Option (List Char)) :
    ∀ (ts : List Tok), ∀ r ∈ runsOf (procCorrection target repl la ts),
      r ∈ runsOf ts ∨ r ∈ runsOf repl := by
  intro ts
  induction ts using procCorrection.induct
  case target => exact target
  case repl => exact repl
  case la => exact la
  case case1 =>
    intro r hr
    simp [procCorrection, runsOf] at hr
  case case2 g rest ih =>
    intro r hr
    rw [show procCorrection target repl la (.gap g :: rest)
        = .gap g :: procCorrection target repl la rest from by
      simp [procCorrection]] at hr
    rw [runsOf_cons_gap] at hr
    rw [runsOf_cons_gap]
    exact ih r hr
  case case3 r0 rest heq hla ih =>
    intro r hr
    rw [show procCorrection target repl la (.run r0 :: rest)
        = repl ++ procCorrection target repl la rest from by
      subst hla; simp [procCorrection, heq]] at hr
    rw [runsOf_append] at hr
    rcases List.mem_append.mp hr with h1 | h2
    · exact Or.inr h1
    · rcases ih r h2 with h3 | h4
      · exact Or.inl (by rw [runsOf_cons_run]; exact List.mem_cons_of_mem _ h3)
      · exact Or.inr h4
  case case4 r0 heq w hla g r2 tail hcond ih =>
    intro r hr
    rw [show procCorrection target repl la (.run r0 :: .gap g :: .run r2 :: tail)
        = repl ++ procCorrection target repl la (.gap g :: .run r2 :: tail) from by
      subst hla; simp [procCorrection, heq, hcond]] at hr
    rw [runsOf_append] at hr
    rcases List.mem_append.mp hr with h1 | h2
    · exact Or.inr h1
    · rcases ih r h2 with h3 | h4
      · exact Or.inl (by rw [runsOf_cons_run]; exact List.mem_cons_of_mem _ h3)
      · exact Or.inr h4
  case case5 r0 heq w hla g r2 tail hcond ih =>
    intro r hr
    rw [show procCorrection target repl la (.run r0 :: .gap g :: .run r2 :: tail)
        = .run r0 :: procCorrection target repl la (.gap g :: .run r2 :: tail) from by
      subst hla; simp [procCorrection, heq, hcond]] at hr
    rw [runsOf_cons_run] at hr
    rcases List.mem_cons.mp hr with rfl | hr'
    · exact Or.inl (by rw [runsOf_cons_run]; exact List.mem_cons_self _ _)
    · rcases ih r hr' with h3 | h4
      · exact Or.inl (by rw [runsOf_cons_run]; exact List.mem_cons_of_mem _ h3)
      · exact Or.inr h4
  case case6 r0 rest heq w hla hshape ih =>
    intro r hr
    rw [show procCorrection target repl la (.run r0 :: rest)
        = .run r0 :: procCorrection target repl la rest from by
      subst hla; simp [procCorrection, heq, hshape]] at hr
    rw [runsOf_cons_run] at hr
    rcases List.mem_cons.mp hr with rfl | hr'
    · exact Or.inl (by rw [runsOf_cons_run]; exact List.mem_cons_self _ _)
    · rcases ih r hr' with h3 | h4
      · exact Or.inl (by rw [runsOf_cons_run]; exact List.mem_cons_of_mem _ h3)
      · exact Or.inr h4
  case case7 r0 rest hne ih =>
    intro r hr
    rw [show procCorrection target repl la (.run r0 :: rest)
        = .run r0 :: procCorrection target repl la rest from by
      simp [procCorrection, hne]] at hr
    rw [runsOf_cons_run] at hr
    rcases List.mem_cons.mp hr with rfl | hr'
    · exact Or.inl (by rw [runsOf_cons_run]; exact List.mem_cons_self _ _)
    · rcases ih r hr' with h3 | h4
      · exact Or.inl (by rw [runsOf_cons_run]; exact List.mem_cons_of_mem _ h3)
      · exact Or.inr h4

theorem procCorrection_canon (target a q b : List Char) (la : Option (List Char))
    (hwa : wfTok (.run a)) (hwq : wfTok (.gap q)) (hwb : wfTok (.run b)) :
    ∀ ts, Canon ts →
      Canon (procCorrection target [.run a, .gap q, .run b] la ts) ∧
      (∀ t ∈ (procCorrection target [.run a, .gap q, .run b] la ts).head?,
        ∃ t0 ∈ ts.head?, t.isRun = t0.isRun) := by
  intro ts
  induction ts using procCorrection.induct
  case target => exact target
  case repl => exact [.run a, .gap q, .run b]
  case la => exact la
  case case1 =>
    intro _
    refine ⟨canon_nil, ?_⟩
    intro t ht
    simp [procCorrection] at ht
  case case2 g rest ih =>
    intro h
    obtain ⟨ihc, ihh⟩ := ih (canon_tail h)
    rw [show procCorrection target [.run a, .gap q, .run b] la (.gap g :: rest)
        = .gap g :: procCorrection target [.run a, .gap q, .run b] la rest from by
      simp [procCorrection]]
    refine ⟨⟨?_, List.chain'_cons'.mpr ⟨?_, ihc.2⟩⟩, ?_⟩
    · intro t ht
      rcases List.mem_cons.mp ht with rfl | ht'
      · exact canon_head_wf h
      · exact ihc.1 t ht'
    · intro t ht
      obtain ⟨t0, ht0, hk⟩ := ihh t ht
      have := (List.chain'_cons'.mp h.2).1 t0 ht0
      rw [Ne, ← hk] at this
      exact this
    · intro t ht
      simp only [List.head?_cons, Option.mem_def, Option.some.injEq] at ht
      subst ht
      exact ⟨.gap g, rfl, rfl⟩
  case case3 r0 rest heq hla ih =>
    intro h
    obtain ⟨ihc, ihh⟩ := ih (canon_tail h)
    subst hla
    rw [show procCorrection target [.run a, .gap q, .run b] none (.run r0 :: rest)
        = .run a :: .gap q :: .run b
            :: procCorrection target [.run a, .gap q, .run b] none rest from by
      simp [procCorrection, heq]]
    refine ⟨⟨?_, ?_⟩, ?_⟩
    · intro t ht
      rcases List.mem_cons.mp ht with rfl | ht'
      · exact hwa
      rcases List.mem_cons.mp ht' with rfl | ht''
      · exact hwq
      rcases List.mem_cons.mp ht'' with rfl | ht3
      · exact hwb
      · exact ihc.1 t ht3
    · refine List.chain'_cons'.mpr ⟨by simp [Tok.isRun], ?_⟩
      refine List.chain'_cons'.mpr ⟨by simp [Tok.isRun], ?_⟩
      refine List.chain'_cons'.mpr ⟨?_, ihc.2⟩
      intro t ht
      obtain ⟨t0, ht0, hk⟩ := ihh t ht
      have := (List.chain'_cons'.mp h.2).1 t0 ht0
      rw [hk]
      exact this
    · intro t ht
      simp only [List.head?_cons, Option.mem_def, Option.some.injEq] at ht
      subst ht
      exact ⟨.run r0, rfl, rfl⟩
  case case4 r0 heq w hla g r2 tail hcond ih =>
    intro h
    obtain ⟨ihc, ihh⟩ := ih (canon_tail h)
    subst hla
    rw [show procCorrection target [.run a, .gap q, .run b] (some w)
            (.run r0 :: .gap g :: .run r2 :: tail)
        = .run a :: .gap q :: .run b
            :: procCorrection target [.run a, .gap q, .run b] (some w)
                (.gap g :: .run r2 :: tail) from by
      simp [procCorrection, heq, hcond]]
    refine ⟨⟨?_, ?_⟩, ?_⟩
    · intro t ht
      rcases List.mem_cons.mp ht with rfl | ht'
      · exact hwa
      rcases List.mem_cons.mp ht' with rfl | ht''
      · exact hwq
      rcases List.mem_cons.mp ht'' with rfl | ht3
      · exact hwb
      · exact ihc.1 t ht3
    · refine List.chain'_cons'.mpr ⟨by simp [Tok.isRun], ?_⟩
      refine List.chain'_cons'.mpr ⟨by simp [Tok.isRun], ?_⟩
      refine List.chain'_cons'.mpr ⟨?_, ihc.2⟩
      intro t ht
      obtain ⟨t0, ht0, hk⟩ := ihh t ht
      have := (List.chain'_cons'.mp h.2).1 t0 ht0
      rw [hk]
      exact this
    · intro t ht
      simp only [List.head?_cons, Option.mem_def, Option.some.injEq] at ht
      subst ht
      exact ⟨.run r0, rfl, rfl⟩
  case case5 r0 heq w hla g r2 tail hcond ih =>
    intro h
    obtain ⟨ihc, ihh⟩ := ih (canon_tail h)
    subst hla
    rw [show procCorrection target [.run a, .gap q, .run b] (some w)
            (.run r0 :: .gap g :: .run r2 :: tail)
        = .run r0 :: procCorrection target [.run a, .gap q, .run b] (some w)
            (.gap g :: .run r2 :: tail) from by
      simp [procCorrection, heq, hcond]]
    refine ⟨⟨?_, List.chain'_cons'.mpr ⟨?_, ihc.2⟩⟩, ?_⟩
    · intro t ht
      rcases List.mem_cons.mp ht with rfl | ht'
      · exact canon_head_wf h
      · exact ihc.1 t ht'
    · intro t ht
      obtain ⟨t0, ht0, hk⟩ := ihh t ht
      have := (List.chain'_cons'.mp h.2).1 t0 ht0
      rw [Ne, ← hk] at this
      exact this
    · intro t ht
      simp only [List.head?_cons, Option.mem_def, Option.some.injEq] at ht
      subst ht
      exact ⟨.run r0, rfl, rfl⟩
  case case6 r0 rest heq w hla hshape ih =>
    intro h
    obtain ⟨ihc, ihh⟩ := ih (canon_tail h)
    subst hla
    rw [show procCorrection target [.run a, .gap q, .run b] (some w) (.run r0 :: rest)
        = .run r0 :: procCorrection target [.run a, .gap q, .run b] (some w) rest from by
      simp [procCorrection, heq, hshape]]
    refine ⟨⟨?_, List.chain'_cons'.mpr ⟨?_, ihc.2⟩⟩, ?_⟩
    · intro t ht
      rcases List.mem_cons.mp ht with rfl | ht'
      · exact canon_head_wf h
      · exact ihc.1 t ht'
    · intro t ht
      obtain ⟨t0, ht0, hk⟩ := ihh t ht
      have := (List.chain'_cons'.mp h.2).1 t0 ht0
      rw [Ne, ← hk] at this
      exact this
    · intro t ht
      simp only [List.head?_cons, Option.mem_def, Option.some.injEq] at ht
      subst ht
      exact ⟨.run r0, rfl, rfl⟩
  case case7 r0 rest hne ih =>
    intro h
    obtain ⟨ihc, ihh⟩ := ih (canon_tail h)
    rw [show procCorrection target [.run a, .gap q, .run b] la (.run r0 :: rest)
        = .run r0 :: procCorrection target [.run a, .gap q, .run b] la rest from by
      simp [procCorrection, hne]]
    refine ⟨⟨?_, List.chain'_cons'.mpr ⟨?_, ihc.2⟩⟩, ?_⟩
    · intro t ht
      rcases List.mem_cons.mp ht with rfl | ht'
      · exact canon_head_wf h
      · exact ihc.1 t ht'
    · intro t ht
      obtain ⟨t0, ht0, hk⟩ := ihh t ht
      have := (List.chain'_cons'.mp h.2).1 t0 ht0
      rw [Ne, ← hk] at this
      exact this
    · intro t ht
      simp only [List.head?_cons, Option.mem_def, Option.some.injEq] at ht
      subst ht
      exact ⟨.run r0, rfl, rfl⟩

theorem nonword_getLast_contra {pre r : List Char}
    (hl : ∀ c ∈ pre.getLast?, isWordC c = false)
    (hw : ∀ c ∈ r, isWordC c = true)
    (hsub : pre ⊆ r) (hpne : pre ≠ []) : False := by
  cases hlast : pre.getLast? with
  | none => exact hpne (List.getLast?_eq_none_iff.mp hlast)
  | some l =>
    have hmem : l ∈ pre := List.mem_of_mem_getLast? (by rw [hlast]; rfl)
    have h1 := hl l (by rw [hlast]; rfl)
    rw [hw l (hsub hmem)] at h1
    exact Bool.true_eq_false.mp h1

theorem wordBlock_mem_runs : ∀ (T : List Tok), Canon T →
    ∀ (pre mid post : List Char), detok T = pre ++ mid ++ post → mid ≠ [] →
    (∀ c ∈ mid, isWordC c = true) →
    (∀ c ∈ pre.getLast?, isWordC c = false) →
    (∀ c ∈ post.head?, isWordC c = false) →
    mid ∈ runsOf T := by
  intro T
  induction T with
  | nil =>
    intro _ pre mid post heq hne _ _ _
    have h0 : pre ++ mid ++ post = [] := heq.symm
    rcases List.append_eq_nil.mp h0 with ⟨h1, _⟩
    rcases List.append_eq_nil.mp h1 with ⟨_, h3⟩
    exact absurd h3 hne
  | cons t rest ih =>
    intro hc pre mid post heq hne hword hl hr
    cases t with
    | gap g =>
      have hwf := canon_head_wf hc
      have hdet : detok (.gap g :: rest) = g ++ detok rest := rfl
      rw [hdet, List.append_assoc] at heq
      rcases List.append_eq_append_iff.mp heq with ⟨a', ha1, ha2⟩ | ⟨c', hc1, hc2⟩
      · have hl' : ∀ c ∈ a'.getLast?, isWordC c = false := by
          rcases eq_or_ne a' [] with h0 | h0
          · subst h0; intro c hcm; simp at hcm
          · intro c hcm
            apply hl
            rw [ha1, List.getLast?_append_of_ne_nil _ h0]
            exact hcm
        have hmem := ih (canon_tail hc) a' mid post
          (by rw [ha2, List.append_assoc]) hne hword hl' hr
        rw [runsOf_cons_gap]
        exact hmem
      · cases c' with
        | nil =>
          rw [List.append_nil] at hc1
          have hl0 : ∀ c ∈ ([] : List Char).getLast?, isWordC c = false := by
            intro c hcm; simp at hcm
          have hmem := ih (canon_tail hc) [] mid post
            (by simpa using hc2.symm) hne hword hl0 hr
          rw [runsOf_cons_gap]
          exact hmem
        | cons x c'' =>
          exfalso
          cases mid with
          | nil => exact hne rfl
          | cons m0 mid' =>
            have hx : m0 = x := by
              have h5 := congrArg List.head? hc2
              simpa using h5
            have hxg : x ∈ g := by
              rw [hc1]
              exact List.mem_append.mpr (Or.inr (List.mem_cons_self _ _))
            have hword0 := hword m0 (List.mem_cons_self _ _)
            rw [hx, hwf.2 x hxg] at hword0
            exact Bool.true_eq_false.mp hword0.symm
    | run r =>
      have hwf := canon_head_wf hc
      have hdet : detok (.run r :: rest) = r ++ detok rest := rfl
      rw [hdet, List.append_assoc] at heq
      rcases List.append_eq_append_iff.mp heq with ⟨a', ha1, ha2⟩ | ⟨c', hc1, hc2⟩
      · rcases eq_or_ne a' [] with h0 | h0
        · exfalso
          subst h0
          rw [List.append_nil] at ha1
          exact nonword_getLast_contra hl hwf.2 (by rw [ha1]; exact List.Subset.refl _)
            (by rw [ha1]; exact hwf.1)
        · have hl' : ∀ c ∈ a'.getLast?, isWordC c = false := by
            intro c hcm
            apply hl
            rw [ha1, List.getLast?_append_of_ne_nil _ h0]
            exact hcm
          have hmem := ih (canon_tail hc) a' mid post
            (by rw [ha2, List.append_assoc]) hne hword hl' hr
          rw [runsOf_cons_run]
          exact List.mem_cons_of_mem _ hmem
      · have hprenil : pre = [] := by
          by_contra hpne
          exact nonword_getLast_contra hl hwf.2
            (fun u hu => by rw [hc1]; exact List.mem_append.mpr (Or.inl hu)) hpne
        rcases List.append_eq_append_iff.mp hc2 with ⟨m', hm1, hm2⟩ | ⟨p', hp1, hp2⟩
        · have hmnil : m' = [] := by
            cases m' with
            | nil => rfl
            | cons z zs =>
              exfalso
              have hz : post.head? = some z := by rw [hm2]; rfl
              have hzr : z ∈ r := by
                rw [hc1, hm1]
                exact List.mem_append.mpr (Or.inr
                  (List.mem_append.mpr (Or.inr (List.mem_cons_self _ _))))
              have h6 := hr z (by rw [hz]; rfl)
              rw [hwf.2 z hzr] at h6
              exact Bool.true_eq_false.mp h6
          have hrm : r = mid := by
            rw [hc1, hprenil, hm1, hmnil]
            simp
          rw [runsOf_cons_run, hrm]
          exact List.mem_cons_self _ _
        · cases p' with
          | nil =>
            rw [List.append_nil] at hp1
            have hrm : r = mid := by
              rw [hc1, hprenil, ← hp1]
              simp
            rw [runsOf_cons_run, hrm]
            exact List.mem_cons_self _ _
          | cons y ys =>
            exfalso
            have hy : (detok rest).head? = some y := by rw [hp2]; rfl
            have hyw : isWordC y = true := by
              apply hword
              rw [hp1]
              exact List.mem_append.mpr (Or.inr (List.mem_cons_self _ _))
            cases rest with
            | nil => simp [detok] at hy
            | cons t2 rest2 =>
              cases t2 with
              | run r2 =>
                have h7 := (List.chain'_cons'.mp hc.2).1 (Tok.run r2) rfl
                simp [Tok.isRun] at h7
              | gap g2 =>
                have hwf2 : wfTok (.gap g2) :=
                  hc.1 _ (List.mem_cons_of_mem _ (List.mem_cons_self _ _))
                cases g2 with
                | nil => exact hwf2.1 rfl
                | cons w0 g2' =>
                  have h8 : (detok (Tok.gap (w0 :: g2') :: rest2)).head? = some w0 := rfl
                  rw [hy] at h8
                  have hw0 : w0 = y := by simpa using h8.symm
                  have h9 := hwf2.2 w0 (List.mem_cons_self _ _)
                  rw [hw0, hyw] at h9
                  exact Bool.true_eq_false.mp h9

theorem runsOf_mapGaps (f : List Char → List Char) :
    ∀ ts, runsOf (mapGaps f ts) = runsOf ts := by
  intro ts
  induction ts with
  | nil => rfl
  | cons t rest ih =>
    cases t with
    | gap g =>
      rw [show mapGaps f (.gap g :: rest) = .gap (f g) :: mapGaps f rest from rfl,
        runsOf_cons_gap, runsOf_cons_gap]
      exact ih
    | run r =>
      rw [show mapGaps f (.run r :: rest) = .run r :: mapGaps f rest from rfl,
        runsOf_cons_run, runsOf_cons_run, ih]

theorem mapGaps_canon (f : List Char → List Char)
    (hf : ∀ g : List Char, g ≠ [] → (∀ c ∈ g, isWordC c = false) →
      (f g ≠ [] ∧ ∀ c ∈ f g, isWordC c = false)) :
    ∀ ts, Canon ts → Canon (mapGaps f ts) ∧
      (∀ t ∈ (mapGaps f ts).head?, ∃ t0 ∈ ts.head?, t.isRun = t0.isRun) := by
  intro ts
  induction ts with
  | nil =>
    intro _
    exact ⟨canon_nil, by intro t ht; simp [mapGaps] at ht⟩
  | cons t rest ih =>
    intro h
    obtain ⟨ihc, ihh⟩ := ih (canon_tail h)
    cases t with
    | gap g =>
      have hwf := canon_head_wf h
      have hfg := hf g hwf.1 hwf.2
      rw [show mapGaps f (.gap g :: rest) = .gap (f g) :: mapGaps f rest from rfl]
      refine ⟨⟨?_, List.chain'_cons'.mpr ⟨?_, ihc.2⟩⟩, ?_⟩
      · intro u hu
        rcases List.mem_cons.mp hu with rfl | hu'
        · exact hfg
        · exact ihc.1 u hu'
      · intro u hu
        obtain ⟨t0, ht0, hk⟩ := ihh u hu
        have := (List.chain'_cons'.mp h.2).1 t0 ht0
        rw [hk]
        exact this
      · intro u hu
        simp only [List.head?_cons, Option.mem_def, Option.some.injEq] at hu
        subst hu
        exact ⟨.gap g, rfl, rfl⟩
    | run r =>
      rw [show mapGaps f (.run r :: rest) = .run r :: mapGaps f rest from rfl]
      refine ⟨⟨?_, List.chain'_cons'.mpr ⟨?_, ihc.2⟩⟩, ?_⟩
      · intro u hu
        rcases List.mem_cons.mp hu with rfl | hu'
        · exact canon_head_wf h
        · exact ihc.1 u hu'
      · intro u hu
        obtain ⟨t0, ht0, hk⟩ := ihh u hu
        have := (List.chain'_cons'.mp h.2).1 t0 ht0
        rw [hk]
        exact this
      · intro u hu
        simp only [List.head?_cons, Option.mem_def, Option.some.injEq] at hu
        subst hu
        exact ⟨.run r, rfl, rfl⟩

theorem mem_collapseWsAux : ∀ (b : Bool) (s : List Char) (c : Char),
    c ∈ collapseWsAux b s → c = ' ' ∨ (c ∈ s ∧ isWs c = false) := by
  intro b s
  induction s generalizing b with
  | nil => intro c hc; simp [collapseWsAux] at hc
  | cons x xs ih =>
    intro c hc
    by_cases hx : isWs x
    · rw [show collapseWsAux b (x :: xs)
          = if b then collapseWsAux true xs else ' ' :: collapseWsAux true xs from by
        simp [collapseWsAux, hx]] at hc
      by_cases hb : b
      · rw [if_pos hb] at hc
        rcases ih true c hc with h1 | h2
        · exact Or.inl h1
        · exact Or.inr ⟨List.mem_cons_of_mem _ h2.1, h2.2⟩
      · rw [if_neg hb] at hc
        rcases List.mem_cons.mp hc with rfl | hc'
        · exact Or.inl rfl
        · rcases ih true c hc' with h1 | h2
          · exact Or.inl h1
          · exact Or.inr ⟨List.mem_cons_of_mem _ h2.1, h2.2⟩
    · rw [show collapseWsAux b (x :: xs) = x :: collapseWsAux false xs from by
        simp [collapseWsAux, hx]] at hc
      rcases List.mem_cons.mp hc with rfl | hc'
      · exact Or.inr ⟨List.mem_cons_self _ _, Bool.eq_false_iff.mpr hx⟩
      · rcases ih false c hc' with h1 | h2
        · exact Or.inl h1
        · exact Or.inr ⟨List.mem_cons_of_mem _ h2.1, h2.2⟩

theorem collapseWs_ne_nil (s : List Char) (hs : s ≠ []) : collapseWs s ≠ [] := by
  cases s with
  | nil => exact absurd rfl hs
  | cons x xs =>
    unfold collapseWs collapseWsAux
    by_cases hx : isWs x <;> simp [hx]

theorem mem_fixCommasF : ∀ (f : Nat) (s : List Char) (c : Char),
    c ∈ fixCommasF f s → c ∈ s ∨ c = ',' := by
  intro f s
  induction f, s using fixCommasF.induct
  case case1 s => intro c hc; exact Or.inl hc
  case case2 f => intro c hc; simp [fixCommasF] at hc
  case case3 f c0 cs t1 t2 h2 h1 ih =>
    intro c hc
    rw [show fixCommasF (f + 1) (c0 :: cs) = ',' :: fixCommasF f t2 from by
      simp [fixCommasF, h1, h2]] at hc
    rcases List.mem_cons.mp hc with rfl | hc'
    · exact Or.inr rfl
    · rcases ih c hc' with hm | hm
      · refine Or.inl ?_
        have s1 : c ∈ t1.dropWhile isWs := by
          rw [h2]; exact List.mem_cons_of_mem _ hm
        have s2 : c ∈ (c0 :: cs).dropWhile isWs := by
          rw [h1]; exact List.mem_cons_of_mem _ (mem_dropWhile_sub _ _ s1)
        exact mem_dropWhile_sub _ _ s2
      · exact Or.inr hm
  case case4 f c0 cs t1 hne h1 ih =>
    intro c hc
    rw [show fixCommasF (f + 1) (c0 :: cs) = c0 :: fixCommasF f cs from by
      simp [fixCommasF, h1, hne]] at hc
    rcases List.mem_cons.mp hc with rfl | hc'
    · exact Or.inl (List.mem_cons_self _ _)
    · rcases ih c hc' with hm | hm
      · exact Or.inl (List.mem_cons_of_mem _ hm)
      · exact Or.inr hm
  case case5 f c0 cs hne ih =>
    intro c hc
    rw [show fixCommasF (f + 1) (c0 :: cs) = c0 :: fixCommasF f cs from by
      simp [fixCommasF, hne]] at hc
    rcases List.mem_cons.mp hc with rfl | hc'
    · exact Or.inl (List.mem_cons_self _ _)
    · rcases ih c hc' with hm | hm
      · exact Or.inl (List.mem_cons_of_mem _ hm)
      · exact Or.inr hm

theorem fixCommasF_ne_nil : ∀ (f : Nat) (s : List Char), s ≠ [] → fixCommasF f s ≠ [] := by
  intro f s hs
  cases f with
  | zero => exact hs
  | succ f' =>
    cases s with
    | nil => exact absurd rfl hs
    | cons c0 cs =>
      unfold fixCommasF
      split
      · simp_all
      · split <;> (try split) <;> simp

theorem mem_fixQMarksF : ∀ (f : Nat) (s : List Char) (c : Char),
    c ∈ fixQMarksF f s → c ∈ s ∨ c = '?' := by
  intro f s
  induction f, s using fixQMarksF.induct
  case case1 s => intro c hc; exact Or.inl hc
  case case2 f => intro c hc; simp [fixQMarksF] at hc
  case case3 f c0 cs t1 h1 ih =>
    intro c hc
    rw [show fixQMarksF (f + 1) (c0 :: cs) = '?' :: fixQMarksF f (t1.dropWhile isWs)
        from by simp [fixQMarksF, h1]] at hc
    rcases List.mem_cons.mp hc with rfl | hc'
    · exact Or.inr rfl
    · rcases ih c hc' with hm | hm
      · refine Or.inl ?_
        have s1 : c ∈ t1 := mem_dropWhile_sub _ _ hm
        have s2 : c ∈ (c0 :: cs).dropWhile isWs := by
          rw [h1]; exact List.mem_cons_of_mem _ s1
        exact mem_dropWhile_sub _ _ s2
      · exact Or.inr hm
  case case4 f c0 cs hne ih =>
    intro c hc
    rw [show fixQMarksF (f + 1) (c0 :: cs) = c0 :: fixQMarksF f cs from by
      simp [fixQMarksF, hne]] at hc
    rcases List.mem_cons.mp hc with rfl | hc'
    · exact Or.inl (List.mem_cons_self _ _)
    · rcases ih c hc' with hm | hm
      · exact Or.inl (List.mem_cons_of_mem _ hm)
      · exact Or.inr hm

theorem fixQMarksF_ne_nil : ∀ (f : Nat) (s : List Char), s ≠ [] → fixQMarksF f s ≠ [] := by
  intro f s hs
  cases f with
  | zero => exact hs
  | succ f' =>
    cases s with
    | nil => exact absurd rfl hs
    | cons c0 cs =>
      unfold fixQMarksF
      split
      · simp_all
      · split <;> simp


theorem mem_revDropRev_sub (p : Char → Bool) (g : List Char) :
    ((g.reverse.dropWhile p).reverse : List Char) ⊆ g := by
  intro c hc
  have h1 : c ∈ g.reverse.dropWhile p := List.mem_reverse.mp hc
  exact List.mem_reverse.mp (mem_dropWhile_sub _ _ h1)

theorem stripTrailToks_cons_cons (t t2 : Tok) (rest2 : List Tok) :
    stripTrailToks (t :: t2 :: rest2) = t :: stripTrailToks (t2 :: rest2) := by
  cases t <;> rfl

theorem stripLeadToks_canon : ∀ {ts : List Tok}, Canon ts → Canon (stripLeadToks ts) := by
  intro ts h
  cases ts with
  | nil => exact h
  | cons t rest =>
    cases t with
    | run r => exact h
    | gap g =>
      rw [show stripLeadToks (.gap g :: rest)
          = if (g.dropWhile isWs).isEmpty then rest
            else .gap (g.dropWhile isWs) :: rest from rfl]
      split
      · exact canon_tail h
      · next hne =>
        constructor
        · intro u hu
          rcases List.mem_cons.mp hu with rfl | hu'
          · refine ⟨fun h0 => hne (by rw [h0]; rfl), ?_⟩
            intro c hc
            exact (canon_head_wf h).2 c (mem_dropWhile_sub _ _ hc)
          · exact h.1 u (List.mem_cons_of_mem _ hu')
        · refine List.chain'_cons'.mpr ⟨?_, h.2.tail⟩
          intro b hb
          exact (List.chain'_cons'.mp h.2).1 b hb

theorem runsOf_stripLeadToks (ts : List Tok) :
    runsOf (stripLeadToks ts) = runsOf ts := by
  cases ts with
  | nil => rfl
  | cons t rest =>
    cases t with
    | run r => rfl
    | gap g =>
      rw [show stripLeadToks (.gap g :: rest)
          = if (g.dropWhile isWs).isEmpty then rest
            else .gap (g.dropWhile isWs) :: rest from rfl]
      split
      · rw [runsOf_cons_gap]
      · rw [runsOf_cons_gap, runsOf_cons_gap]

theorem chars_stripLeadToks (ts : List Tok) (P : Char → Prop)
    (h : ∀ t ∈ ts, ∀ c ∈ t.chars, P c) :
    ∀ t ∈ stripLeadToks ts, ∀ c ∈ t.chars, P c := by
  cases ts with
  | nil => exact h
  | cons t0 rest =>
    cases t0 with
    | run r => exact h
    | gap g =>
      rw [show stripLeadToks (.gap g :: rest)
          = if (g.dropWhile isWs).isEmpty then rest
            else .gap (g.dropWhile isWs) :: rest from rfl]
      split
      · intro t ht; exact h t (List.mem_cons_of_mem _ ht)
      · intro t ht
        rcases List.mem_cons.mp ht with rfl | ht'
        · intro c hc
          exact h _ (List.mem_cons_self _ _) c (mem_dropWhile_sub _ _ hc)
        · exact h t (List.mem_cons_of_mem _ ht')

theorem stripTrailToks_head : ∀ (ts : List Tok), ∀ b ∈ (stripTrailToks ts).head?,
    ∃ a ∈ ts.head?, b.isRun = a.isRun := by
  intro ts
  cases ts with
  | nil => intro b hb; simp [stripTrailToks] at hb
  | cons t rest =>
    cases rest with
    | nil =>
      cases t with
      | run r =>
        intro b hb
        rw [show stripTrailToks [.run r] = [.run r] from rfl] at hb
        simp only [List.head?_cons, Option.mem_def, Option.some.injEq] at hb
        subst hb
        exact ⟨.run r, rfl, rfl⟩
      | gap g =>
        intro b hb
        rw [show stripTrailToks [.gap g]
            = if ((g.reverse.dropWhile isWs).reverse).isEmpty then []
              else [.gap ((g.reverse.dropWhile isWs).reverse)] from rfl] at hb
        split at hb
        · simp at hb
        · simp only [List.head?_cons, Option.mem_def, Option.some.injEq] at hb
          subst hb
          exact ⟨.gap g, rfl, rfl⟩
    | cons t2 rest2 =>
      intro b hb
      rw [stripTrailToks_cons_cons] at hb
      simp only [List.head?_cons, Option.mem_def, Option.some.injEq] at hb
      subst hb
      exact ⟨t, rfl, rfl⟩

theorem stripTrailToks_canon : ∀ (ts : List Tok), Canon ts → Canon (stripTrailToks ts) := by
  intro ts
  induction ts with
  | nil => intro h; exact h
  | cons t rest ih =>
    intro h
    cases rest with
    | nil =>
      cases t with
      | run r => exact h
      | gap g =>
        rw [show stripTrailToks [.gap g]
            = if ((g.reverse.dropWhile isWs).reverse).isEmpty then []
              else [.gap ((g.reverse.dropWhile isWs).reverse)] from rfl]
        split
        · exact canon_nil
        · next hne =>
          constructor
          · intro u hu
            rcases List.mem_cons.mp hu with rfl | hu'
            · refine ⟨fun h0 => hne (by rw [h0]; rfl), ?_⟩
              intro c hc
              exact (canon_head_wf h).2 c (mem_revDropRev_sub _ _ hc)
            · simp at hu'
          · simp
    | cons t2 rest2 =>
      rw [stripTrailToks_cons_cons]
      have ihc := ih (canon_tail h)
      constructor
      · intro u hu
        rcases List.mem_cons.mp hu with rfl | hu'
        · exact canon_head_wf h
        · exact ihc.1 u hu'
      · refine List.chain'_cons'.mpr ⟨?_, ihc.2⟩
        intro b hb
        obtain ⟨a, ha, hk⟩ := stripTrailToks_head (t2 :: rest2) b hb
        simp only [List.head?_cons, Option.mem_def, Option.some.injEq] at ha
        subst ha
        have := (List.chain'_cons'.mp h.2).1 t2 rfl
        rw [hk]
        exact this

theorem runsOf_stripTrailToks : ∀ (ts : List Tok),
    runsOf (stripTrailToks ts) = runsOf ts := by
  intro ts
  induction ts with
  | nil => rfl
  | cons t rest ih =>
    cases rest with
    | nil =>
      cases t with
      | run r => rfl
      | gap g =>
        rw [show stripTrailToks [.gap g]
            = if ((g.reverse.dropWhile isWs).reverse).isEmpty then []
              else [.gap ((g.reverse.dropWhile isWs).reverse)] from rfl]
        split <;> rfl
    | cons t2 rest2 =>
      rw [stripTrailToks_cons_cons]
      cases t with
      | gap g => rw [runsOf_cons_gap, runsOf_cons_gap]; exact ih
      | run r => rw [runsOf_cons_run, runsOf_cons_run, ih]

theorem chars_stripTrailToks (P : Char → Prop) : ∀ (ts : List Tok),
    (∀ t ∈ ts, ∀ c ∈ t.chars, P c) →
    ∀ t ∈ stripTrailToks ts, ∀ c ∈ t.chars, P c := by
  intro ts
  induction ts with
  | nil => intro h; exact h
  | cons t0 rest ih =>
    intro h
    cases rest with
    | nil =>
      cases t0 with
      | run r => exact h
      | gap g =>
        rw [show stripTrailToks [.gap g]
            = if ((g.reverse.dropWhile isWs).reverse).isEmpty then []
              else [.gap ((g.reverse.dropWhile isWs).reverse)] from rfl]
        split
        · intro t ht; simp at ht
        · intro t ht
          rcases List.mem_cons.mp ht with rfl | ht'
          · intro c hc
            exact h _ (List.mem_cons_self _ _) c (mem_revDropRev_sub _ _ hc)
          · simp at ht'
    | cons t2 rest2 =>
      rw [stripTrailToks_cons_cons]
      intro t ht
      rcases List.mem_cons.mp ht with rfl | ht'
      · exact h t (List.mem_cons_self _ _)
      · exact ih (fun u hu => h u (List.mem_cons_of_mem _ hu)) t ht'

theorem mem_detok {c : Char} : ∀ {ts : List Tok}, c ∈ detok ts → ∃ t ∈ ts, c ∈ t.chars := by
  intro ts
  induction ts with
  | nil => intro hc; simp [detok] at hc
  | cons t rest ih =>
    intro hc
    rw [show detok (t :: rest) = t.chars ++ detok rest from rfl] at hc
    rcases List.mem_append.mp hc with h1 | h2
    · exact ⟨t, List.mem_cons_self _ _, h1⟩
    · obtain ⟨t', ht', hc'⟩ := ih h2
      exact ⟨t', List.mem_cons_of_mem _ ht', hc'⟩

theorem mem_mapGaps {f : List Char → List Char} : ∀ {ts : List Tok} {t : Tok},
    t ∈ mapGaps f ts →
    (∃ g, Tok.gap g ∈ ts ∧ t = .gap (f g)) ∨ (∃ r, Tok.run r ∈ ts ∧ t = .run r) := by
  intro ts
  induction ts with
  | nil => intro t ht; simp [mapGaps] at ht
  | cons t0 rest ih =>
    intro t ht
    cases t0 with
    | gap g =>
      rw [show mapGaps f (.gap g :: rest) = .gap (f g) :: mapGaps f rest from rfl] at ht
      rcases List.mem_cons.mp ht with rfl | ht'
      · exact Or.inl ⟨g, List.mem_cons_self _ _, rfl⟩
      · rcases ih ht' with ⟨g', hg', rfl⟩ | ⟨r', hr', rfl⟩
        · exact Or.inl ⟨g', List.mem_cons_of_mem _ hg', rfl⟩
        · exact Or.inr ⟨r', List.mem_cons_of_mem _ hr', rfl⟩
    | run r =>
      rw [show mapGaps f (.run r :: rest) = .run r :: mapGaps f rest from rfl] at ht
      rcases List.mem_cons.mp ht with rfl | ht'
      · exact Or.inr ⟨r, List.mem_cons_self _ _, rfl⟩
      · rcases ih ht' with ⟨g', hg', rfl⟩ | ⟨r', hr', rfl⟩
        · exact Or.inl ⟨g', List.mem_cons_of_mem _ hg', rfl⟩
        · exact Or.inr ⟨r', List.mem_cons_of_mem _ hr', rfl⟩

theorem splitNNAux_cons_ne (c : Char) (hc : c ≠ '\n') : ∀ (acc cs : List Char),
    splitNNAux acc (c :: cs) = splitNNAux (c :: acc) cs := by
  intro acc cs
  rw [splitNNAux.eq_def]
  split
  · next heq => simp at heq; exact absurd heq.1 hc
  · next heq =>
    injection heq with h1 h2
    subst h1
    subst h2
    rfl
  · next heq => simp at heq

theorem splitNNAux_no_nl : ∀ (s acc : List Char), '\n' ∉ s →
    splitNNAux acc s = [acc.reverse ++ s] := by
  intro s
  induction s with
  | nil => intro acc _; simp [splitNNAux]
  | cons c cs ih =>
    intro acc hnl
    have hc : c ≠ '\n' := fun h => hnl (h ▸ List.mem_cons_self _ _)
    rw [splitNNAux_cons_ne c hc acc cs,
      ih (c :: acc) (fun h => hnl (List.mem_cons_of_mem _ h))]
    simp

theorem splitNN_no_nl {s : List Char} (h : '\n' ∉ s) : splitNN s = [s] := by
  have h1 := splitNNAux_no_nl s [] h
  simpa [splitNN] using h1

theorem extractKeySegments_len_le_one {text : List Char} (h : '\n' ∉ text) :
    (extractKeySegments text).length ≤ 1 := by
  unfold extractKeySegments
  rw [splitNN_no_nl h]
  simp only [List.length_map, List.enum_length]
  calc (([pyStrip text].filter (fun p => !p.isEmpty)).length)
      ≤ [pyStrip text].length := List.length_filter_le _ _
    _ = 1 := rfl

theorem isWordC_of_alpha_lowChar {c : Char} (h : isAlphaC (lowChar c) = true) :
    isWordC c = true := by
  unfold lowChar at h
  by_cases hu : isUpperC c = true
  · simp [isWordC, isAlphaC, hu]
  · rw [if_neg hu] at h
    simp [isWordC, h]

theorem commasGapOK : ∀ g : List Char, g ≠ [] → (∀ c ∈ g, isWordC c = false) →
    (fixCommasF g.length g ≠ [] ∧ ∀ c ∈ fixCommasF g.length g, isWordC c = false) := by
  intro g hg hw
  refine ⟨fixCommasF_ne_nil _ _ hg, ?_⟩
  intro c hc
  rcases mem_fixCommasF _ _ _ hc with h1 | rfl
  · exact hw c h1
  · decide

theorem qmarksGapOK : ∀ g : List Char, g ≠ [] → (∀ c ∈ g, isWordC c = false) →
    (fixQMarksF g.length g ≠ [] ∧ ∀ c ∈ fixQMarksF g.length g, isWordC c = false) := by
  intro g hg hw
  refine ⟨fixQMarksF_ne_nil _ _ hg, ?_⟩
  intro c hc
  rcases mem_fixQMarksF _ _ _ hc with h1 | rfl
  · exact hw c h1
  · decide

theorem collapseGapOK : ∀ g : List Char, g ≠ [] → (∀ c ∈ g, isWordC c = false) →
    (collapseWs g ≠ [] ∧ ∀ c ∈ collapseWs g, isWordC c = false) := by
  intro g hg hw
  refine ⟨collapseWs_ne_nil g hg, ?_⟩
  intro c hc
  rcases mem_collapseWsAux false g c hc with rfl | ⟨h1, _⟩
  · decide
  · exact hw c h1

theorem procCorrection_no_filler (target a q b : List Char) (la : Option (List Char))
    (ha : lowStr a ∉ singleFillers) (hb : lowStr b ∉ singleFillers)
    {ts : List Tok} (h : ∀ r ∈ runsOf ts, lowStr r ∉ singleFillers) :
    ∀ r ∈ runsOf (procCorrection target [.run a, .gap q, .run b] la ts),
      lowStr r ∉ singleFillers := by
  intro r hr
  rcases procCorrection_runs target _ la ts r hr with h1 | h1
  · exact h r h1
  · rw [show runsOf [Tok.run a, Tok.gap q, Tok.run b] = [a, b] from rfl] at h1
    rcases List.mem_cons.mp h1 with rfl | h2
    · exact ha
    · rcases List.mem_cons.mp h2 with rfl | h3
      · exact hb
      · simp at h3

theorem fixCommonErrors_canon {ts : List Tok} (h : Canon ts) :
    Canon (fixCommonErrors ts) :=
  (procCorrection_canon "theyre".data "they".data ['\''] "re".data none
    ⟨by decide, by decide⟩ ⟨by decide, by decide⟩ ⟨by decide, by decide⟩ _
    ((procCorrection_canon "weve".data "we".data ['\''] "ve".data none
      ⟨by decide, by decide⟩ ⟨by decide, by decide⟩ ⟨by decide, by decide⟩ _
      ((procCorrection_canon "youve".data "you".data ['\''] "ve".data none
        ⟨by decide, by decide⟩ ⟨by decide, by decide⟩ ⟨by decide, by decide⟩ _
        ((procCorrection_canon "its".data "it".data ['\''] "s".data (some "a".data)
          ⟨by decide, by decide⟩ ⟨by decide, by decide⟩ ⟨by decide, by decide⟩ _
          ((procCorrection_canon "were".data "we".data ['\''] "re".data (some "going".data)
            ⟨by decide, by decide⟩ ⟨by decide, by decide⟩ ⟨by decide, by decide⟩ _
            ((procCorrection_canon "theres".data "there".data ['\''] "s".data none
              ⟨by decide, by decide⟩ ⟨by decide, by decide⟩ ⟨by decide, by decide⟩ _
              h).1)).1)).1)).1)).1)).1

theorem fixCommonErrors_no_filler {ts : List Tok}
    (h : ∀ r ∈ runsOf ts, lowStr r ∉ singleFillers) :
    ∀ r ∈ runsOf (fixCommonErrors ts), lowStr r ∉ singleFillers :=
  procCorrection_no_filler "theyre".data "they".data ['\''] "re".data none
    (by decide) (by decide)
    (procCorrection_no_filler "weve".data "we".data ['\''] "ve".data none
      (by decide) (by decide)
      (procCorrection_no_filler "youve".data "you".data ['\''] "ve".data none
        (by decide) (by decide)
        (procCorrection_no_filler "its".data "it".data ['\''] "s".data (some "a".data)
          (by decide) (by decide)
          (procCorrection_no_filler "were".data "we".data ['\''] "re".data (some "going".data)
            (by decide) (by decide)
            (procCorrection_no_filler "theres".data "there".data ['\''] "s".data none
              (by decide) (by decide) h)))))

theorem cleanToks_eq_cleanChars (raw : List Char) :
    detok (cleanToks raw) = cleanChars raw := rfl

theorem cleanToks6_canon (raw : List Char) : Canon (cleanToks6 raw) :=
  fixCommonErrors_canon (procFillersF_canon _ _ (tokenize_canon _))

theorem cleanToks7_canon (raw : List Char) : Canon (cleanToks7 raw) :=
  (mapGaps_canon _ commasGapOK _ (cleanToks6_canon raw)).1

theorem cleanToks8_canon (raw : List Char) : Canon (cleanToks8 raw) :=
  (mapGaps_canon _ qmarksGapOK _ (cleanToks7_canon raw)).1

theorem cleanToks9_canon (raw : List Char) : Canon (cleanToks9 raw) :=
  (mapGaps_canon _ collapseGapOK _ (cleanToks8_canon raw)).1

theorem cleanToks_canon (raw : List Char) : Canon (cleanToks raw) :=
  stripTrailToks_canon _ (stripLeadToks_canon (cleanToks9_canon raw))

theorem cleanToks6_no_filler (raw : List Char) :
    ∀ r ∈ runsOf (cleanToks6 raw), lowStr r ∉ singleFillers :=
  fixCommonErrors_no_filler (fun r hr => (procFillersF_runs _ _ r hr).2)

theorem cleanToks_no_filler (raw : List Char) : noSingleFillerRuns (cleanToks raw) := by
  intro r hr
  rw [show cleanToks raw = stripTrailToks (stripLeadToks (cleanToks9 raw)) from rfl,
    runsOf_stripTrailToks, runsOf_stripLeadToks,
    show cleanToks9 raw = mapGaps collapseWs (cleanToks8 raw) from rfl, runsOf_mapGaps,
    show cleanToks8 raw = mapGaps (fun g => fixQMarksF g.length g) (cleanToks7 raw) from rfl,
    runsOf_mapGaps,
    show cleanToks7 raw = mapGaps (fun g => fixCommasF g.length g) (cleanToks6 raw) from rfl,
    runsOf_mapGaps] at hr
  exact cleanToks6_no_filler raw r hr

theorem cleanToks9_no_nl (raw : List Char) :
    ∀ t ∈ cleanToks9 raw, ∀ c ∈ t.chars, c ≠ '\n' := by
  intro t ht c hc
  rw [show cleanToks9 raw = mapGaps collapseWs (cleanToks8 raw) from rfl] at ht
  rcases mem_mapGaps ht with ⟨g, hg, rfl⟩ | ⟨r, hrr, rfl⟩
  · rcases mem_collapseWsAux false g c hc with rfl | ⟨_, h2⟩
    · decide
    · intro h0
      rw [h0] at h2
      exact absurd h2 (by decide)
  · have hw := ((cleanToks8_canon raw).1 _ hrr).2 c hc
    intro h0
    rw [h0] at hw
    exact absurd hw (by decide)

theorem cleanToks_no_nl (raw : List Char) :
    ∀ t ∈ cleanToks raw, ∀ c ∈ t.chars, c ≠ '\n' :=
  chars_stripTrailToks _ _ (chars_stripLeadToks _ _ (cleanToks9_no_nl raw))

theorem cleanChars_no_nl (raw : List Char) : '\n' ∉ cleanChars raw := by
  rw [← cleanToks_eq_cleanChars]
  intro h
  obtain ⟨t, ht, hc⟩ := mem_detok h
  exact cleanToks_no_nl raw t ht '\n' hc rfl

theorem allFillerAlpha : ∀ w ∈ singleFillers, ∀ d ∈ w, isAlphaC d = true := by decide

theorem string_data_mk (l : List Char) : (String.mk l).data = l := rfl

theorem cleanTranscript_data (raw : String) :
    (cleanTranscript raw).data = cleanChars raw.data :=
  (congrArg String.data
    (show cleanTranscript raw = String.mk (cleanChars raw.data) from rfl)).trans
    (string_data_mk _)

/-- C2 (amended): for every input and every single-word filler token
(`um`, `uh`, `er`, `ah`, `like`), the output of `clean_transcript`
contains no whole-word, case-insensitive occurrence of that filler.
(The full claim is refuted by `c2_counterexample`: the two-word filler
`you know` and the timestamp pattern can both reappear.) -/
theorem c2_filler_free (raw : String) (w : List Char) (hw : w ∈ singleFillers) :
    ¬ wholeWordOccurs w (cleanTranscript raw).data := by
  rintro ⟨pre, mid, post, heq, hlow, hpre, hpost⟩
  rw [cleanTranscript_data, ← cleanToks_eq_cleanChars] at heq
  have heq' : detok (cleanToks raw.data) = pre ++ mid ++ post := heq
  have hmid_ne : mid ≠ [] := by
    intro h0
    rw [h0] at hlow
    rw [← hlow] at hw
    exact absurd hw (by decide)
  have hmid_word : ∀ c ∈ mid, isWordC c = true := by
    intro c hcm
    have h1 : lowChar c ∈ w := by
      rw [← hlow]
      exact List.mem_map_of_mem lowChar hcm
    exact isWordC_of_alpha_lowChar (allFillerAlpha w hw (lowChar c) h1)
  have hmem := wordBlock_mem_runs _ (cleanToks_canon raw.data) pre mid post heq'
    hmid_ne hmid_word hpre hpost
  have h3 := cleanToks_no_filler raw.data mid hmem
  rw [hlow] at h3
  exact h3 hw

theorem c2_filler_free_witness :
    "um".data ∈ singleFillers ∧
      ¬ wholeWordOccurs "um".data (cleanTranscript "So um yes").data :=
  ⟨by decide, c2_filler_free "So um yes" "um".data (by decide)⟩

/-- C10: `clean_transcript` output never contains a newline, so
`extract_key_segments` applied to it, as `process_from_file` does,
finds a single paragraph and yields at most one segment. -/
theorem c10_newline_free_single_segment (raw : String) :
    '\n' ∉ (cleanTranscript raw).data ∧
    (extractKeySegments (cleanTranscript raw).data).length ≤ 1 := by
  have h0 : '\n' ∉ (cleanTranscript raw).data := by
    rw [cleanTranscript_data]
    exact cleanChars_no_nl raw.data
  exact ⟨h0, extractKeySegments_len_le_one h0⟩

end Podcast
